import Mathlib

/-!
# ShadowMount: scan / classify / act reconciliation engine

A shallow embedding of `src/main.c`.

* C strings (`char*`, NUL terminated) are `List Char` without the terminator; a byte is a
  `Char`.  `snprintf (buf, N, ...)` keeps the first `N - 1` characters of the formatted text.
* Every call that leaves the process (system call, libc file access, SDK call, log line) is
  recorded, in program order, as an `Event`; the value the call returned is part of the event.
  A function that makes such calls takes the trace `tr` of all earlier events and returns its
  result together with the events it emitted itself (`ev`); the functions that work on the
  globals (`State`) append them to `State.trace`.
* The outside world is an `Env`: one answer function per external call.  Every answer may depend
  on the whole trace so far, so the filesystem and the backend may change between any two calls.
* `time_t` values are integers (seconds); `difftime (a, b)` is `a - b`, which is exact for every
  pair of time stamps below `2 ^ 53`.
* `int` counters are unbounded integers (they are reset to `0` before every pass, and signed
  overflow is undefined in C).  The status of the backend is an `int` compared with the
  `unsigned` constant `0x80990002`, that is modulo `2 ^ 32`.
* A log line, `copy_dir` and `copy_file` are one event each.  `readdir` is the list of names the
  directory had when it was opened.
* `scan_directory_recursive` carries fuel for its recursion and returns an `Option`; it is shown
  to return a state for every fuel from `MAX_RECURSION_DEPTH + 2` on.

* A file opened with `"rb+"` is its list of bytes; `fwrite` at offset `0` replaces the first
  bytes and does not truncate the file (`overwrite_start`, `fix_drm_file`).

The definitions come first, then the theorems: the reconcile step row by row, the orchestrator,
the stability gate, the descriptor reader, the cache invariants over whole passes, the depth
bound of the walk, the insertion into the cache and what it means for a deferred title, the
DRM rewrite run twice, and the cache-hit row with the second occurrence of a bundle.
-/

namespace ShadowMount

/-! ## Configuration -/

def MAX_PENDING : Nat := 512
def MAX_PATH : Nat := 1024
def MAX_TITLE_ID : Nat := 32
def MAX_TITLE_NAME : Nat := 256
def MAX_RECURSION_DEPTH : Int := 5
def TOAST_FILE : List Char := "/data/shadowmount/notify.txt".toList

/-- A C string: the characters before the terminating NUL. -/
abbrev CStr := List Char

def NUL : Char := Char.ofNat 0
def QUOTE : Char := Char.ofNat 34
def BACKSLASH : Char := Char.ofNat 92
def COLON : Char := Char.ofNat 58
def SLASH : Char := Char.ofNat 47
def DOT : Char := Char.ofNat 46

/-- The C string held in a buffer whose bytes are `bytes` followed by a NUL. -/
def cstr (bytes : List Char) : CStr := bytes.takeWhile (fun c => c != NUL)

/-- The text `snprintf (buf, size, ...)` leaves in `buf` when the formatted text is `s`. -/
def snprintf (size : Nat) (s : CStr) : CStr := s.take (size - 1)

/-- The libc `isspace` in the "C" locale. -/
def isspace (c : Char) : Bool :=
  c == Char.ofNat 32 || c == Char.ofNat 9 || c == Char.ofNat 10 || c == Char.ofNat 11 ||
  c == Char.ofNat 12 || c == Char.ofNat 13

/-- The libc `strstr`: the suffix of `hay` starting at the first occurrence of `needle`. -/
def strstr : CStr → CStr → Option CStr
  | [], needle => if needle = [] then some [] else none
  | c :: cs, needle => if needle.isPrefixOf (c :: cs) then some (c :: cs) else strstr cs needle

/-- The libc `strchr` for a non-NUL character: the suffix starting at its first occurrence. -/
def strchr : CStr → Char → Option CStr
  | [], _ => none
  | c :: cs, x => if c = x then some (c :: cs) else strchr cs x

/-! ## Events, environment, state -/

/-- What `stat` reports that the program looks at. -/
structure Stat where
  is_dir : Bool
  mtime : Int
deriving DecidableEq, Repr

/-- One external call, with its arguments and the value it returned. -/
inductive Event where
  | time (now : Int)
  | stat (path : CStr) (res : Option Stat)
  | access (path : CStr) (ok : Bool)
  | opendir (path : CStr) (ok : Bool)
  | closedir (path : CStr)
  | fopen (path : CStr) (mode : String) (ok : Bool)
  | fwrite (path : CStr) (data : List Char)
  | malloc (size : Nat) (ok : Bool)
  | mkdir (path : CStr)
  | remount_system_ex
  | unmount (path : CStr)
  | mount_nullfs (src dst : CStr) (ret : Int)
  | copy_dir (src dst : CStr)
  | copy_file (src dst : CStr)
  | sceAppInstUtilAppInstallTitleDir (title_id : CStr) (ret : Int)
  | sceKernelUsleep (us : Nat)
  | log_debug (fmt : String) (args : List CStr)
deriving DecidableEq, Repr

abbrev Trace := List Event

/-- The answers of the outside world.  Each answer is a function of the trace so far. -/
structure Env where
  /-- The value of `time (NULL)`. -/
  time : Trace → Int
  /-- The result of `stat (path, &st)`; `none` when it fails. -/
  stat : Trace → CStr → Option Stat
  /-- Whether `access (path, F_OK) == 0`. -/
  access : Trace → CStr → Bool
  /-- The `d_name`s that `readdir` yields after `opendir (path)`; `none` when `opendir` fails. -/
  opendir : Trace → CStr → Option (List CStr)
  /-- The bytes of the file when `fopen (path, "rb")` (`rw = false`) or `fopen (path, "rb+")`
  (`rw = true`) succeeds. -/
  read_file : Trace → CStr → (rw : Bool) → Option (List Char)
  /-- Whether `fopen (path, "w")` succeeds. -/
  fopen_w : Trace → CStr → Bool
  /-- Whether `malloc (size)` returns a non-null pointer. -/
  malloc : Trace → Nat → Bool
  /-- The value returned by `nmount` for the nullfs bind of `src` onto `dst`. -/
  nmount_nullfs : Trace → CStr → CStr → Int
  /-- The status returned by `sceAppInstUtilAppInstallTitleDir (title_id, "/user/app/", 0)`. -/
  sceAppInstUtilAppInstallTitleDir : Trace → CStr → Int

/-- One slot of the global `cache` array. -/
structure GameCache where
  path : CStr
  title_id : CStr
  title_name : CStr
  valid : Bool
deriving DecidableEq, Repr

/-- The mutable globals of the program, and the trace of its external calls. -/
structure State where
  cache : List GameCache
  g_installed_count : Int
  g_mounted_count : Int
  trace : Trace
deriving DecidableEq, Repr

/-- The zero-initialised `cache[MAX_PENDING]`. -/
def initCache : List GameCache := List.replicate MAX_PENDING ⟨[], [], [], false⟩

/-- The globals at program start. -/
def initState : State := ⟨initCache, 0, 0, []⟩

/-! ## JSON and DRM -/

/-- The copy loop of `extract_json_string`: `room` is `out_size - 1 - i`, the argument list is the
text at `p + i`. -/
def extract_loop : Nat → Bool → CStr → CStr
  | _, _, [] => []
  | room, escape, c :: rest =>
    if room = 0 then []
    else if !escape && c = QUOTE then []
    else if c = BACKSLASH && !escape then extract_loop room true rest
    else c :: extract_loop (room - 1) false rest

/-- The text right after the opening quote of the value of the first `"key"` in `json`, or the
error code of `extract_json_string`. -/
def json_value_start (json key : CStr) : Except Int CStr :=
  let search := snprintf 64 (QUOTE :: key ++ [QUOTE])
  match strstr json search with
  | none => .error (-1)
  | some p =>
    match strchr (p.drop search.length) COLON with
    | none => .error (-2)
    | some p =>
      let p := (p.drop 1).dropWhile isspace
      if p.head? ≠ some QUOTE then .error (-3)
      else .ok (p.drop 1)

/-- The function `extract_json_string`: `.ok out` when it returns `0` having written `out`,
`.error code` when it returns `code` and leaves `out` untouched. -/
def extract_json_string (json key : CStr) (out_size : Nat) : Except Int CStr :=
  match json_value_start json key with
  | .error e => .error e
  | .ok p => .ok (extract_loop (out_size - 1) false p)

def DRM_KEY : CStr := QUOTE :: "applicationDrmType".toList ++ [QUOTE]
def STANDARD : CStr := "standard".toList

/-- The buffer part of `fix_application_drm_type`: the return value and, when the file is
rewritten, the bytes passed to `fwrite` (written at offset `0`; the file is not truncated). -/
def fix_drm_buffer (bytes : List Char) : Int × Option (List Char) :=
  let buf := cstr bytes
  match strstr buf DRM_KEY with
  | none => (0, none)
  | some p =>
    match strchr (p.drop DRM_KEY.length) COLON with
    | none => (-1, none)
    | some colon =>
      match strchr colon QUOTE with
      | none => (-1, none)
      | some q1 =>
        match strchr (q1.drop 1) QUOTE with
        | none => (-1, none)
        | some q2 =>
          if q1.length - q2.length - 1 = STANDARD.length ∧ (q1.drop 1).take STANDARD.length = STANDARD
          then (0, none)
          else (1, some (buf.take (buf.length - q1.length + 1) ++ STANDARD ++ q2))

/-- The function `fix_application_drm_type`.  (`malloc` is not checked by the code and is taken to
succeed.) -/
def fix_application_drm_type (env : Env) (path : CStr) (tr : Trace) : Int × List Event :=
  match env.read_file tr path true with
  | none => (-1, [Event.fopen path "rb+" false])
  | some bytes =>
    let ev := [Event.fopen path "rb+" true]
    if bytes.length ≤ 0 ∨ bytes.length > 1024 * 1024 * 5 then (-1, ev)
    else
      match fix_drm_buffer bytes with
      | (r, none) => (r, ev)
      | (r, some out) => (r, ev ++ [Event.fwrite path out])

/-- The part of `get_game_info` that works on the NUL-terminated buffer `buf`; `out_name` is what
the caller's name buffer held on entry.  The result is `(out_id, out_name)` when the function
returns `true`. -/
def get_game_info_buffer (buf : CStr) (out_name : CStr) : Option (CStr × CStr) :=
  let res :=
    match extract_json_string buf "titleId".toList MAX_TITLE_ID with
    | .ok out_id => Except.ok out_id
    | .error _ => extract_json_string buf "title_id".toList MAX_TITLE_ID
  match res with
  | .error _ => none
  | .ok out_id =>
    let search_start :=
      match strstr buf (QUOTE :: "en-US".toList ++ [QUOTE]) with
      | some en_ptr => en_ptr
      | none => buf
    let out_name :=
      match extract_json_string search_start "titleName".toList MAX_TITLE_NAME with
      | .ok n => n
      | .error _ =>
        match extract_json_string buf "titleName".toList MAX_TITLE_NAME with
        | .ok n => n
        | .error _ => out_name
    let out_name := if out_name.length = 0 then snprintf MAX_TITLE_NAME out_id else out_name
    some (out_id, out_name)

/-- The descriptor of a bundle: `snprintf (path, sizeof (path), "%s/sce_sys/param.json", base_path)`. -/
def descriptor_path (base_path : CStr) : CStr :=
  snprintf MAX_PATH (base_path ++ "/sce_sys/param.json".toList)

/-- The function `get_game_info`: `some (out_id, out_name)` when it returns `true`. -/
def get_game_info (env : Env) (base_path : CStr) (out_name : CStr) (tr : Trace) :
    Option (CStr × CStr) × List Event :=
  let path := descriptor_path base_path
  let ev := (fix_application_drm_type env path tr).2
  match env.read_file (tr ++ ev) path false with
  | none => (none, ev ++ [Event.fopen path "rb" false])
  | some bytes =>
    let ev := ev ++ [Event.fopen path "rb" true]
    if 0 < bytes.length ∧ bytes.length < 1024 * 1024 then
      if env.malloc (tr ++ ev) (bytes.length + 1) then
        (get_game_info_buffer (cstr bytes) out_name, ev ++ [Event.malloc (bytes.length + 1) true])
      else (none, ev ++ [Event.malloc (bytes.length + 1) false])
    else (none, ev)

/-! ## Filesystem probes -/

/-- The path probed by `is_installed`: `snprintf (path, sizeof (path), "/user/app/%s", title_id)`. -/
def install_dir (title_id : CStr) : CStr := snprintf MAX_PATH ("/user/app/".toList ++ title_id)

/-- The path probed by `is_data_mounted`:
`snprintf (path, sizeof (path), "/system_ex/app/%s/sce_sys/param.json", title_id)`. -/
def mount_marker (title_id : CStr) : CStr :=
  snprintf MAX_PATH ("/system_ex/app/".toList ++ title_id ++ "/sce_sys/param.json".toList)

/-- The function `is_installed`. -/
def is_installed (env : Env) (title_id : CStr) (tr : Trace) : Bool × List Event :=
  let path := install_dir title_id
  let r := env.stat tr path
  (r.isSome, [Event.stat path r])

/-- The function `is_data_mounted`. -/
def is_data_mounted (env : Env) (title_id : CStr) (tr : Trace) : Bool × List Event :=
  let path := mount_marker title_id
  let ok := env.access tr path
  (ok, [Event.access path ok])

/-! ## Fast stability check -/

/-- The metadata subdirectory: `snprintf (sys_path, sizeof (sys_path), "%s/sce_sys", path)`. -/
def sce_sys_path (path : CStr) : CStr := snprintf MAX_PATH (path ++ "/sce_sys".toList)

/-- The function `wait_for_stability_fast`. -/
def wait_for_stability_fast (env : Env) (path name : CStr) (tr : Trace) : Bool × List Event :=
  let now := env.time tr
  let ev := [Event.time now]
  -- 1. Check Root Folder Timestamp
  let r := env.stat (tr ++ ev) path
  let ev := ev ++ [Event.stat path r]
  match r with
  | none => (false, ev)
  | some st =>
    let diff := now - st.mtime
    let wait : List Event :=
      [Event.log_debug "  [WAIT] %s modified %.0fs ago. Waiting..." [name],
        Event.sceKernelUsleep 2000000]
    if diff > 10 then
      -- Double check sce_sys just to be sure
      let sys_path := sce_sys_path path
      let r2 := env.stat (tr ++ ev) sys_path
      let ev := ev ++ [Event.stat sys_path r2]
      match r2 with
      | some st2 => if now - st2.mtime > 10 then (true, ev) else (false, ev ++ wait)
      | none => (true, ev)
    else (false, ev ++ wait)

/-! ## Mount and install -/

/-- The function `trigger_rich_toast`. -/
def trigger_rich_toast (env : Env) (title_id game_name msg : CStr) (tr : Trace) : List Event :=
  let f := env.fopen_w tr TOAST_FILE
  if f then
    [Event.fopen TOAST_FILE "w" f,
      Event.fwrite TOAST_FILE (title_id ++ "|".toList ++ game_name ++ "|".toList ++ msg)]
  else [Event.fopen TOAST_FILE "w" f]

/-- The bind target:
`snprintf (system_ex_app, sizeof (system_ex_app), "/system_ex/app/%s", title_id)`. -/
def bind_target (title_id : CStr) : CStr := snprintf MAX_PATH ("/system_ex/app/".toList ++ title_id)

/-- The tracker file:
`snprintf (lnk_path, sizeof (lnk_path), "/user/app/%s/mount.lnk", title_id)`. -/
def lnk_path (title_id : CStr) : CStr :=
  snprintf MAX_PATH ("/user/app/".toList ++ title_id ++ "/mount.lnk".toList)

/-- The staged metadata directory: `"%s/sce_sys"` under `/user/app/<title_id>`. -/
def user_sce_sys (title_id : CStr) : CStr :=
  snprintf MAX_PATH (install_dir title_id ++ "/sce_sys".toList)

/-- The icon of the bundle: `snprintf (icon_src, .., "%s/sce_sys/icon0.png", src_path)`. -/
def icon_src (src_path : CStr) : CStr := snprintf MAX_PATH (src_path ++ "/sce_sys/icon0.png".toList)

/-- The staged icon: `snprintf (icon_dst, .., "/user/app/%s/icon0.png", title_id)`. -/
def icon_dst (title_id : CStr) : CStr :=
  snprintf MAX_PATH ("/user/app/".toList ++ title_id ++ "/icon0.png".toList)

/-- The `// COPY FILES` section of `mount_and_install`.  The two helpers `copy_dir` and
`copy_file` are single events: their return values are ignored here. -/
def mount_and_install_copy_files (src_path title_id : CStr) (is_remount : Bool) : List Event :=
  if !is_remount then
    let user_app_dir := install_dir title_id
    let src_sce_sys := sce_sys_path src_path
    [Event.mkdir user_app_dir, Event.mkdir (user_sce_sys title_id),
      Event.copy_dir src_sce_sys (user_sce_sys title_id),
      Event.copy_file (icon_src src_path) (icon_dst title_id)]
  else [Event.log_debug "  [SPEED] Skipping file copy (Assets already exist)" []]

/-- The `// WRITE TRACKER` section of `mount_and_install`. -/
def mount_and_install_write_tracker (env : Env) (src_path title_id : CStr) (tr : Trace) :
    List Event :=
  let flnk := env.fopen_w tr (lnk_path title_id)
  if flnk then [Event.fopen (lnk_path title_id) "w" flnk, Event.fwrite (lnk_path title_id) src_path]
  else [Event.fopen (lnk_path title_id) "w" flnk]

/-- The `// REGISTER` section of `mount_and_install`, to the end of the function.  `res` is an
`int` and `0x80990002` an `unsigned int`: the comparison is made modulo `2 ^ 32`. -/
def mount_and_install_register (env : Env) (title_id title_name : CStr) (tr : Trace) :
    Bool × List Event :=
  let res := env.sceAppInstUtilAppInstallTitleDir tr title_id
  let ev := [Event.sceAppInstUtilAppInstallTitleDir title_id res, Event.sceKernelUsleep 200000]
  if res = 0 then
    let ev := ev ++ [Event.log_debug "  [REG] Installed NEW!" []]
    (true, ev ++ trigger_rich_toast env title_id title_name "Installed".toList (tr ++ ev))
  else if res % 4294967296 = 0x80990002 then
    (true, ev ++ [Event.log_debug "  [REG] Restored." []])
  else (false, ev ++ [Event.log_debug "  [REG] FAIL: 0x%x" []])

/-- The function `mount_and_install`: the `// MOUNT` section, then the three sections above. -/
def mount_and_install (env : Env) (src_path title_id title_name : CStr) (is_remount : Bool)
    (tr : Trace) : Bool × List Event :=
  let system_ex_app := bind_target title_id
  let ev := [Event.mkdir system_ex_app, Event.remount_system_ex, Event.unmount system_ex_app]
  let ret := env.nmount_nullfs (tr ++ ev) src_path system_ex_app
  let ev := ev ++ [Event.mount_nullfs src_path system_ex_app ret]
  if ret < 0 then (false, ev ++ [Event.log_debug "  [MOUNT] FAIL: %s" []])
  else
    let ev := ev ++ mount_and_install_copy_files src_path title_id is_remount
    let ev := ev ++ mount_and_install_write_tracker env src_path title_id (tr ++ ev)
    let r := mount_and_install_register env title_id title_name (tr ++ ev)
    (r.1, ev ++ r.2)

/-- The value the bind call of `mount_and_install` returns when the function is entered with the
trace `tr`. -/
def mount_and_install_bind_ret (env : Env) (src_path title_id : CStr) (tr : Trace) : Int :=
  env.nmount_nullfs (tr ++ [Event.mkdir (bind_target title_id), Event.remount_system_ex,
    Event.unmount (bind_target title_id)]) src_path (bind_target title_id)

/-! ## Recursive scan -/

/-- STEP 3 of the scan loop: is there a valid slot holding `title_id`? -/
def already_processed (cache : List GameCache) (title_id : CStr) : Bool :=
  cache.any (fun c => c.valid && decide (c.title_id = title_id))

/-- STEP 4 of the scan loop: fill the first slot that is not valid, if there is one. -/
def cache_add (full_path title_id title_name : CStr) : List GameCache → List GameCache
  | [] => []
  | c :: cs =>
    if !c.valid then
      ⟨snprintf MAX_PATH full_path, snprintf MAX_TITLE_ID title_id,
        snprintf MAX_TITLE_NAME title_name, true⟩ :: cs
    else c :: cache_add full_path title_id title_name cs

/-- The reconcile step: the body of `if (get_game_info (full_path, title_id, title_name))` in
`scan_directory_recursive` (STEP 1 to CASE B). -/
def reconcile_step (env : Env) (full_path title_id title_name : CStr) (st : State) : State :=
  -- STEP 1: Check current state
  let installed := is_installed env title_id st.trace
  let mounted := is_data_mounted env title_id (st.trace ++ installed.2)
  let tr := st.trace ++ installed.2 ++ mounted.2
  -- STEP 2: If mounted, the game is working - skip completely
  if mounted.1 then { st with trace := tr }
  -- STEP 3: Check cache
  else if already_processed st.cache title_id then { st with trace := tr }
  else
    -- STEP 4: Add to cache
    let cache := cache_add full_path title_id title_name st.cache
    -- STEP 5
    let tr := tr ++ [Event.log_debug "[PROCESS] %s (%s) - installed=%d" [title_name, title_id]]
    if installed.1 then
      -- CASE A: Installed but not mounted -> Just mount
      let tr := tr ++ [Event.log_debug "[MOUNT] %s" [title_name]]
      let r := mount_and_install env full_path title_id title_name true tr
      { cache := cache, g_installed_count := st.g_installed_count,
        g_mounted_count := if r.1 then st.g_mounted_count + 1 else st.g_mounted_count,
        trace := tr ++ r.2 }
    else
      -- CASE B: Not installed at all -> Fresh install
      let tr := tr ++ [Event.log_debug "[INSTALL] %s (%s)" [title_name, title_id]]
      let stable := wait_for_stability_fast env full_path title_name tr
      let tr := tr ++ stable.2
      if !stable.1 then
        { cache := cache, g_installed_count := st.g_installed_count,
          g_mounted_count := st.g_mounted_count, trace := tr }
      else
        let r := mount_and_install env full_path title_id title_name false tr
        { cache := cache,
          g_installed_count := if r.1 then st.g_installed_count + 1 else st.g_installed_count,
          g_mounted_count := st.g_mounted_count, trace := tr ++ r.2 }

/-- The path of a directory entry:
`snprintf (full_path, sizeof (full_path), "%s/%s", dir_path, entry->d_name)`. -/
def entry_path (dir_path d_name : CStr) : CStr := snprintf MAX_PATH (dir_path ++ [SLASH] ++ d_name)

/-- One iteration of the `readdir` loop of `scan_directory_recursive`, for the entry `d_name`;
`recurse` is the recursive call. -/
def scan_entry (env : Env) (recurse : CStr → Int → State → Option State) (dir_path : CStr)
    (depth : Int) (st : State) (d_name : CStr) : Option State :=
  -- Skip hidden files and special directories
  if d_name.head? = some DOT then some st
  else
    let full_path := entry_path dir_path d_name
    let r := env.stat st.trace full_path
    let st := { st with trace := st.trace ++ [Event.stat full_path r] }
    match r with
    | none => some st
    | some s =>
      if !s.is_dir then some st
      else
        -- Check if this is a valid game folder
        let info := get_game_info env full_path [] st.trace
        let st := { st with trace := st.trace ++ info.2 }
        match info.1 with
        | some (title_id, title_name) => some (reconcile_step env full_path title_id title_name st)
        | none => recurse full_path (depth + 1) st

/-- The function `scan_directory_recursive`.  The first argument is fuel for the recursion:
`none` is returned only when it runs out, which it never does from `MAX_RECURSION_DEPTH + 2` on
(`scan_directory_recursive_total`).  The entries of a directory are the list `readdir` yields. -/
def scan_directory_recursive (env : Env) : Nat → CStr → Int → State → Option State
  | 0, _, _, _ => none
  | fuel + 1, dir_path, depth, st =>
    if depth > MAX_RECURSION_DEPTH then some st
    else
      match env.opendir st.trace dir_path with
      | none => some { st with trace := st.trace ++ [Event.opendir dir_path false] }
      | some entries =>
        let st := { st with trace := st.trace ++ [Event.opendir dir_path true,
          Event.log_debug "[RECURSIVE] Scanning: %s (depth=%d)" [dir_path]] }
        (entries.foldlM (scan_entry env (scan_directory_recursive env fuel) dir_path depth) st).map
          (fun st => { st with trace := st.trace ++ [Event.closedir dir_path] })

/-! ## Main scan function -/

def SCAN_PATHS : List CStr :=
  ["/data/homebrew", "/data/etaHEN/games",
   "/mnt/ext0/homebrew", "/mnt/ext0/etaHEN/homebrew", "/mnt/ext0/etaHEN/games",
   "/mnt/ext1/homebrew", "/mnt/ext1/etaHEN/homebrew", "/mnt/ext1/etaHEN/games",
   "/mnt/usb0/homebrew", "/mnt/usb1/homebrew", "/mnt/usb2/homebrew", "/mnt/usb3/homebrew",
   "/mnt/usb4/homebrew", "/mnt/usb5/homebrew", "/mnt/usb6/homebrew", "/mnt/usb7/homebrew",
   "/mnt/usb0/etaHEN/games", "/mnt/usb1/etaHEN/games", "/mnt/usb2/etaHEN/games",
   "/mnt/usb3/etaHEN/games", "/mnt/usb4/etaHEN/games", "/mnt/usb5/etaHEN/games",
   "/mnt/usb6/etaHEN/games", "/mnt/usb7/etaHEN/games"].map String.toList

/-- The "Cache Cleaner" loop of `scan_all_paths`, slot by slot: the new slots and the events. -/
def cache_cleaner (env : Env) : List GameCache → Trace → List GameCache × List Event
  | [], _ => ([], [])
  | c :: cs, tr =>
    if c.valid then
      let ok := env.access tr c.path
      if !ok then
        let ev := [Event.access c.path ok,
          Event.log_debug "[CACHE] Removed stale entry: %s" [c.path]]
        let r := cache_cleaner env cs (tr ++ ev)
        ({ c with valid := false } :: r.1, ev ++ r.2)
      else
        let ev := [Event.access c.path ok]
        let r := cache_cleaner env cs (tr ++ ev)
        (c :: r.1, ev ++ r.2)
    else
      let r := cache_cleaner env cs tr
      (c :: r.1, r.2)

/-- One iteration of the loop over `SCAN_PATHS` in `scan_all_paths`. -/
def scan_root (env : Env) (fuel : Nat) (st : State) (root : CStr) : Option State :=
  let r := env.stat st.trace root
  let st := { st with trace := st.trace ++ [Event.stat root r] }
  match r with
  | some s =>
    if s.is_dir then
      scan_directory_recursive env fuel root 0
        { st with trace := st.trace ++ [Event.log_debug "[SCAN] Starting scan: %s" [root]] }
    else some st
  | none => some st

/-- The function `scan_all_paths`; `fuel` is the fuel given to each `scan_directory_recursive`. -/
def scan_all_paths (env : Env) (fuel : Nat) (st : State) : Option State :=
  let r := cache_cleaner env st.cache st.trace
  SCAN_PATHS.foldlM (scan_root env fuel) { st with cache := r.1, trace := st.trace ++ r.2 }

/-- The scan passes of `main`: `n` times, reset both counters and run `scan_all_paths`. -/
def scan_passes (env : Env) (fuel : Nat) : Nat → State → Option State
  | 0, st => some st
  | n + 1, st =>
    match scan_all_paths env fuel { st with g_installed_count := 0, g_mounted_count := 0 } with
    | none => none
    | some st => scan_passes env fuel n st

/-! ## Relations kept by a scan -/

/-- A relation between the globals before and after is established by a whole scan as soon as
it is reflexive, transitive, established by every extension of the trace and by every reconcile
step on a title id that fits its buffer. -/
structure ScanRel (env : Env) (P : State → State → Prop) : Prop where
  refl : ∀ s, P s s
  trans : ∀ a b c, P a b → P b c → P a c
  emit : ∀ (s : State) (ev : List Event), P s { s with trace := s.trace ++ ev }
  step : ∀ (s : State) (full_path title_id title_name : CStr),
    title_id.length ≤ MAX_TITLE_ID - 1 →
    P s (reconcile_step env full_path title_id title_name s)

/-! ## Reading the cache -/

/-- The number of indices `k` with `cache[k].valid` and `cache[k].title_id` equal to `T`. -/
def slots_of (cache : List GameCache) (T : CStr) : Nat :=
  cache.countP (fun c => c.valid && decide (c.title_id = T))

/-! ## Reading a trace -/

/-- The bind call (`mount_nullfs`). -/
def Event.is_bind : Event → Bool
  | .mount_nullfs _ _ _ => true
  | _ => false

/-- The staging calls (`copy_dir`, `copy_file`). -/
def Event.is_copy : Event → Bool
  | .copy_dir _ _ => true
  | .copy_file _ _ => true
  | _ => false

/-- The backend registration call. -/
def Event.is_registration : Event → Bool
  | .sceAppInstUtilAppInstallTitleDir _ _ => true
  | _ => false

/-- File creation and file writes (`fopen (.., "w")`, `fwrite`): tracker, toast, descriptor. -/
def Event.is_file_write : Event → Bool
  | .fopen _ mode _ => decide (mode = "w")
  | .fwrite _ _ => true
  | _ => false

/-- The clock read that opens `wait_for_stability_fast`. -/
def Event.is_gate : Event → Bool
  | .time _ => true
  | _ => false

/-- Directory creation. -/
def Event.is_mkdir : Event → Bool
  | .mkdir _ => true
  | _ => false

/-- The events by which `scan_directory_recursive` enumerates a directory: `opendir` (followed
by the `readdir` loop) and `closedir`. -/
def Event.is_walk : Event → Bool
  | .opendir _ _ => true
  | .closedir _ => true
  | _ => false

/-- Whether the event is the enumeration (`opendir` or `closedir`) of the directory `q`. -/
def Event.enumerates (q : CStr) : Event → Bool
  | .opendir p _ => decide (p = q)
  | .closedir p => decide (p = q)
  | _ => false

/-! ## Nesting -/

/-- The path the walk builds for the directory reached from `root` through the entry names
`names`, one `entry_path` per level. -/
def nested_path (root : CStr) (names : List CStr) : CStr := names.foldl entry_path root

/-- The path `root/n1/.../nk` itself, not truncated. -/
def plain_path (root : CStr) (names : List CStr) : CStr :=
  names.foldl (fun p n => p ++ [SLASH] ++ n) root

/-- The directories reached from `dir` through `names` are containers, one inside the other, and
stay so during the walk: at each level the directory can be opened and lists the next name, which
is not hidden, is a directory for `stat`, and is not a bundle for `get_game_info`. -/
def container_chain (env : Env) : CStr → List CStr → Prop
  | _, [] => True
  | dir, n :: ns =>
    (∀ tr, ∃ l, env.opendir tr dir = some l ∧ n ∈ l) ∧
    n.head? ≠ some DOT ∧
    (∀ tr, ∃ s, env.stat tr (entry_path dir n) = some s ∧ s.is_dir = true) ∧
    (∀ tr, (get_game_info env (entry_path dir n) [] tr).1 = none) ∧
    container_chain env (entry_path dir n) ns

/-- From `s` to `s'` the trace only grew, and every directory enumerated by the new events has
at most `B` slashes in its path. -/
def walk_bounded (B : Nat) (s s' : State) : Prop :=
  ∃ new, s'.trace = s.trace ++ new ∧
    ∀ e ∈ new, ∀ q, e.enumerates q = true → q.count SLASH ≤ B

/-! ## The descriptor file under the DRM rewrite -/

/-- The effect of `fseek (f, 0, SEEK_SET); fwrite (data, 1, strlen (data), f)` on a file opened
with `"rb+"`: `data` replaces the first bytes of the file, which is not truncated. -/
def overwrite_start (content data : List Char) : List Char := data ++ content.drop data.length

/-- The function `fix_application_drm_type` on a file that opens for update and holds `content`:
the return value and the content of the file afterwards. -/
def fix_drm_file (content : List Char) : Int × List Char :=
  if content.length ≤ 0 ∨ content.length > 1024 * 1024 * 5 then (-1, content)
  else
    match fix_drm_buffer content with
    | (r, none) => (r, content)
    | (r, some out) => (r, overwrite_start content out)

/-- The value of the first `"applicationDrmType"` field of a file, located as
`fix_application_drm_type` locates it: in the C string `strstr` sees, the text between the first
quote after the first colon after the first occurrence of the key, and the next quote. -/
def drm_value (bytes : List Char) : Option CStr :=
  match strstr (cstr bytes) DRM_KEY with
  | none => none
  | some p =>
    match strchr (p.drop DRM_KEY.length) COLON with
    | none => none
    | some colon =>
      match strchr colon QUOTE with
      | none => none
      | some q1 =>
        match strchr (q1.drop 1) QUOTE with
        | none => none
        | some q2 => some ((q1.drop 1).take (q1.length - q2.length - 1))

/-- The content of the file `path` after the writes among `ev`, each made at offset `0` of the
file opened for update. -/
def file_after (path : CStr) (content : List Char) (ev : List Event) : List Char :=
  ev.foldl (fun c e =>
    match e with
    | .fwrite p data => if p = path then overwrite_start c data else c
    | _ => c) content

/-- The descriptor `"applicationDrmType":"free"`, in braces. -/
def descriptor_drm_free : List Char := "\x7b\"applicationDrmType\":\"free\"\x7d".toList

/-- A descriptor that is the key `"applicationDrmType"` alone, with no colon after it. -/
def descriptor_drm_no_colon : List Char := "\"applicationDrmType\"".toList

/-- A descriptor of exactly 5 MiB: the field `"applicationDrmType":""` and 5242857 blanks. -/
def descriptor_drm_five_mib : List Char :=
  "\"applicationDrmType\":\"\"".toList ++ List.replicate 5242857 (Char.ofNat 32)

/-! ## Concrete environments -/

/-- A world in which every probe succeeds: every title is installed and mounted. -/
def env_all_mounted : Env where
  time := fun _ => 100
  stat := fun _ _ => some ⟨true, 0⟩
  access := fun _ _ => true
  opendir := fun _ _ => none
  read_file := fun _ _ _ => none
  fopen_w := fun _ _ => true
  malloc := fun _ _ => true
  nmount_nullfs := fun _ _ _ => 0
  sceAppInstUtilAppInstallTitleDir := fun _ _ => 0

/-- A world in which every title is installed, nothing is mounted, the bind succeeds and the
backend answers "already registered". -/
def env_installed : Env where
  time := fun _ => 100
  stat := fun _ _ => some ⟨true, 0⟩
  access := fun _ _ => false
  opendir := fun _ _ => none
  read_file := fun _ _ _ => none
  fopen_w := fun _ _ => true
  malloc := fun _ _ => true
  nmount_nullfs := fun _ _ _ => 0
  sceAppInstUtilAppInstallTitleDir := fun _ _ => 0x80990002 - 4294967296

/-- A world in which nothing is installed or mounted, every directory that is not under
`/user/app/` exists and was last modified 100 seconds ago, the bind succeeds and the backend
answers "newly registered". -/
def env_fresh : Env where
  time := fun _ => 100
  stat := fun _ p => if "/user/app/".toList.isPrefixOf p then none else some ⟨true, 0⟩
  access := fun _ _ => false
  opendir := fun _ _ => none
  read_file := fun _ _ _ => none
  fopen_w := fun _ _ => true
  malloc := fun _ _ => true
  nmount_nullfs := fun _ _ _ => 0
  sceAppInstUtilAppInstallTitleDir := fun _ _ => 0

/-- A world in which every descriptor file reads `bytes` (and cannot be opened for update). -/
def env_descriptor (bytes : List Char) : Env where
  time := fun _ => 100
  stat := fun _ _ => some ⟨true, 0⟩
  access := fun _ _ => false
  opendir := fun _ _ => none
  read_file := fun _ _ rw => if rw then none else some bytes
  fopen_w := fun _ _ => true
  malloc := fun _ _ => true
  nmount_nullfs := fun _ _ _ => 0
  sceAppInstUtilAppInstallTitleDir := fun _ _ => 0

/-- The descriptor `{"titleId": ""}`. -/
def descriptor_empty_id : List Char := "\x7b\"titleId\": \"\"\x7d".toList

/-- The descriptor `{"titleId": "ABCD00001"}`. -/
def descriptor_id_only : List Char := "\x7b\"titleId\": \"ABCD00001\"\x7d".toList

/-- The descriptor `{"title_id": "WXYZ99999", "titleId": "ABCD00001"}`: both keys, the
`title_id` one first. -/
def descriptor_both_ids : List Char :=
  "\x7b\"title_id\": \"WXYZ99999\", \"titleId\": \"ABCD00001\"\x7d".toList

/-- The names `a`, .., `e`. -/
def names_a_to_e : List CStr := ["a", "b", "c", "d", "e"].map String.toList

/-- The names `a`, .., `f`. -/
def names_a_to_f : List CStr := ["a", "b", "c", "d", "e", "f"].map String.toList

/-- A world with the directories `/r/a/b/c/d/e/f/g`, one inside the other, and one file,
`/r/a/b/c/d/e/f/sce_sys/param.json`, which reads `{}` (no title id: `f` is not a bundle). -/
def env_deep : Env where
  time := fun _ => 100
  stat := fun _ _ => some ⟨true, 0⟩
  access := fun _ _ => false
  opendir := fun _ p =>
    if p = "/r".toList then some ["a".toList]
    else if p = "/r/a".toList then some ["b".toList]
    else if p = "/r/a/b".toList then some ["c".toList]
    else if p = "/r/a/b/c".toList then some ["d".toList]
    else if p = "/r/a/b/c/d".toList then some ["e".toList]
    else if p = "/r/a/b/c/d/e".toList then some ["f".toList]
    else if p = "/r/a/b/c/d/e/f".toList then some ["g".toList]
    else none
  read_file := fun _ p _ =>
    if p = "/r/a/b/c/d/e/f/sce_sys/param.json".toList then some "\x7b\x7d".toList else none
  fopen_w := fun _ _ => true
  malloc := fun _ _ => true
  nmount_nullfs := fun _ _ _ => 0
  sceAppInstUtilAppInstallTitleDir := fun _ _ => 0

/-- A cache with no free slot: slot `i` holds the title `T<i>` found at `/roots/t<i>`. -/
def full_cache : List GameCache :=
  (List.range MAX_PENDING).map (fun i =>
    ⟨"/roots/t".toList ++ Nat.toDigits 10 i, "T".toList ++ Nat.toDigits 10 i, "Game".toList, true⟩)

/-! ## Reconcile step: the mounted row -/

theorem already_processed_iff (cache : List GameCache) (title_id : CStr) :
    already_processed cache title_id = true ↔
      ∃ c ∈ cache, c.valid = true ∧ c.title_id = title_id := by
  simp [already_processed, List.any_eq_true]

/-- C1: when `is_data_mounted (title_id)` is true at classification time, the reconcile step only
makes its two probes (`stat` of the install directory, `access` of the mount marker): no bind, no
copy, no registration, no file write; the cache and both counters are unchanged, whatever the
cache held. -/
theorem reconcile_step_mounted_skips (env : Env) (full_path title_id title_name : CStr)
    (st : State)
    (hm : (is_data_mounted env title_id
      (st.trace ++ (is_installed env title_id st.trace).2)).1 = true) :
    (reconcile_step env full_path title_id title_name st).cache = st.cache ∧
    (reconcile_step env full_path title_id title_name st).g_installed_count
      = st.g_installed_count ∧
    (reconcile_step env full_path title_id title_name st).g_mounted_count
      = st.g_mounted_count ∧
    ∃ r, (reconcile_step env full_path title_id title_name st).trace = st.trace ++
        [Event.stat (install_dir title_id) r, Event.access (mount_marker title_id) true] := by
  simp only [reconcile_step, hm, if_true]
  simp only [is_data_mounted, is_installed] at hm
  refine ⟨trivial, trivial, trivial, env.stat st.trace (install_dir title_id), ?_⟩
  simp only [is_data_mounted, is_installed, hm, List.append_assoc, List.singleton_append]

theorem reconcile_step_mounted_skips_witness :
    (reconcile_step env_all_mounted "/roots/pkgA".toList "ABCD00001".toList "Game A".toList
      initState).cache = initCache :=
  (reconcile_step_mounted_skips env_all_mounted "/roots/pkgA".toList "ABCD00001".toList
    "Game A".toList initState rfl).1

/-! ## The orchestrator, section by section -/

theorem copy_files_counts (src_path title_id : CStr) (is_remount : Bool) :
    (mount_and_install_copy_files src_path title_id is_remount).countP Event.is_bind = 0 ∧
    (mount_and_install_copy_files src_path title_id is_remount).countP Event.is_registration = 0 ∧
    (mount_and_install_copy_files src_path title_id is_remount).countP Event.is_gate = 0 ∧
    (mount_and_install_copy_files src_path title_id is_remount).countP Event.is_copy
      = (if is_remount then 0 else 2) := by
  cases is_remount <;>
    simp [mount_and_install_copy_files, Event.is_bind, Event.is_registration, Event.is_gate,
      Event.is_copy]

theorem write_tracker_counts (env : Env) (src_path title_id : CStr) (tr : Trace) :
    (mount_and_install_write_tracker env src_path title_id tr).countP Event.is_bind = 0 ∧
    (mount_and_install_write_tracker env src_path title_id tr).countP Event.is_registration = 0 ∧
    (mount_and_install_write_tracker env src_path title_id tr).countP Event.is_gate = 0 ∧
    (mount_and_install_write_tracker env src_path title_id tr).countP Event.is_copy = 0 := by
  unfold mount_and_install_write_tracker
  cases env.fopen_w tr (lnk_path title_id) <;>
    simp [Event.is_bind, Event.is_registration, Event.is_gate, Event.is_copy]

theorem trigger_rich_toast_counts (env : Env) (title_id game_name msg : CStr) (tr : Trace) :
    (trigger_rich_toast env title_id game_name msg tr).countP Event.is_bind = 0 ∧
    (trigger_rich_toast env title_id game_name msg tr).countP Event.is_registration = 0 ∧
    (trigger_rich_toast env title_id game_name msg tr).countP Event.is_gate = 0 ∧
    (trigger_rich_toast env title_id game_name msg tr).countP Event.is_copy = 0 := by
  unfold trigger_rich_toast
  cases env.fopen_w tr TOAST_FILE <;>
    simp [Event.is_bind, Event.is_registration, Event.is_gate, Event.is_copy]

/-- The registration section: one registration call, first; success exactly on the two statuses;
on failure nothing follows but the settle delay and the log line. -/
theorem register_spec (env : Env) (title_id title_name : CStr) (tr : Trace) :
    ∃ res l, (mount_and_install_register env title_id title_name tr).2 =
        Event.sceAppInstUtilAppInstallTitleDir title_id res :: l ∧
      ((mount_and_install_register env title_id title_name tr).1 = true ↔
        (res = 0 ∨ res % 4294967296 = 0x80990002)) ∧
      l.countP Event.is_bind = 0 ∧ l.countP Event.is_registration = 0 ∧
      l.countP Event.is_gate = 0 ∧ l.countP Event.is_copy = 0 ∧
      ((mount_and_install_register env title_id title_name tr).1 = false →
        l = [Event.sceKernelUsleep 200000, Event.log_debug "  [REG] FAIL: 0x%x" []]) := by
  refine ⟨env.sceAppInstUtilAppInstallTitleDir tr title_id, ?_⟩
  unfold mount_and_install_register
  have ht := trigger_rich_toast_counts env title_id title_name
  by_cases h0 : env.sceAppInstUtilAppInstallTitleDir tr title_id = 0
  · simp only [h0, if_true]
    refine ⟨_, rfl, by simp, ?_, ?_, ?_, ?_, by simp⟩ <;>
      simp [List.countP_cons, List.countP_append, ht, Event.is_bind, Event.is_registration,
        Event.is_gate, Event.is_copy, -List.countP_eq_zero]
  · by_cases h1 : env.sceAppInstUtilAppInstallTitleDir tr title_id % 4294967296 = 0x80990002
    · simp only [h0, h1, if_true, if_false]
      refine ⟨_, rfl, by simp, ?_, ?_, ?_, ?_, by simp⟩ <;>
        simp [Event.is_bind, Event.is_registration, Event.is_gate, Event.is_copy]
    · simp only [h0, h1, if_false]
      refine ⟨_, rfl, by simp [h0, h1], ?_, ?_, ?_, ?_, by simp⟩ <;>
        simp [Event.is_bind, Event.is_registration, Event.is_gate, Event.is_copy]

theorem not_mem_of_countP_eq_zero {p : Event → Bool} {l : List Event} (h : l.countP p = 0)
    {e : Event} (he : p e = true) : e ∉ l := by
  intro hmem
  have := (List.countP_eq_zero.mp h) e hmem
  exact this he

/-- C8: `mount_and_install` makes exactly one bind call.  It returns `true` exactly when that
call returned a value `>= 0` and the registration status is `0` or `0x80990002`.  When the bind
fails it returns `false` having only prepared the target, tried the bind and logged: nothing is
staged, no tracker is written, the backend is not called.  When the bind succeeds the backend is
called exactly once; on any other status the function returns `false` and nothing follows the
registration but the settle delay and the log line (the staged files are left in place). -/
theorem mount_and_install_outcome (env : Env) (src_path title_id title_name : CStr)
    (is_remount : Bool) (tr : Trace) :
    ∃ ret,
      (mount_and_install env src_path title_id title_name is_remount tr).2.countP
        Event.is_bind = 1 ∧
      Event.mount_nullfs src_path (bind_target title_id) ret ∈
        (mount_and_install env src_path title_id title_name is_remount tr).2 ∧
      ((mount_and_install env src_path title_id title_name is_remount tr).1 = true ↔
        0 ≤ ret ∧ ∃ res, Event.sceAppInstUtilAppInstallTitleDir title_id res ∈
            (mount_and_install env src_path title_id title_name is_remount tr).2 ∧
          (res = 0 ∨ res % 4294967296 = 0x80990002)) ∧
      (ret < 0 →
        (mount_and_install env src_path title_id title_name is_remount tr).1 = false ∧
        (mount_and_install env src_path title_id title_name is_remount tr).2 =
          [Event.mkdir (bind_target title_id), Event.remount_system_ex,
           Event.unmount (bind_target title_id),
           Event.mount_nullfs src_path (bind_target title_id) ret,
           Event.log_debug "  [MOUNT] FAIL: %s" []]) ∧
      (0 ≤ ret →
        (mount_and_install env src_path title_id title_name is_remount tr).2.countP
          Event.is_registration = 1 ∧
        ((mount_and_install env src_path title_id title_name is_remount tr).1 = false →
          ∃ before res,
            (mount_and_install env src_path title_id title_name is_remount tr).2 =
              before ++ [Event.sceAppInstUtilAppInstallTitleDir title_id res,
                Event.sceKernelUsleep 200000, Event.log_debug "  [REG] FAIL: 0x%x" []] ∧
            ¬ (res = 0 ∨ res % 4294967296 = 0x80990002) ∧
            before.countP Event.is_copy = (if is_remount then 0 else 2))) := by
  refine ⟨env.nmount_nullfs (tr ++ [Event.mkdir (bind_target title_id), Event.remount_system_ex,
    Event.unmount (bind_target title_id)]) src_path (bind_target title_id), ?_⟩
  by_cases hret : env.nmount_nullfs (tr ++ [Event.mkdir (bind_target title_id),
      Event.remount_system_ex, Event.unmount (bind_target title_id)]) src_path
      (bind_target title_id) < 0
  · have hnot : ¬ (0 ≤ env.nmount_nullfs (tr ++ [Event.mkdir (bind_target title_id),
      Event.remount_system_ex, Event.unmount (bind_target title_id)]) src_path
      (bind_target title_id)) := not_le.mpr hret
    simp only [mount_and_install, hret, if_true]
    refine ⟨by simp [Event.is_bind], by simp, by simp [hnot], fun _ => by simp,
      fun h => absurd h hnot⟩
  · have hge := not_lt.mp hret
    simp only [mount_and_install, hret, if_false]
    have hreg := register_spec env title_id title_name
    have htrk := write_tracker_counts env src_path title_id
    obtain ⟨cb, cr, -, cc⟩ := copy_files_counts src_path title_id is_remount
    generalize mount_and_install_copy_files src_path title_id is_remount = C at *
    generalize hT : mount_and_install_write_tracker env src_path title_id _ = T
    obtain ⟨tb, tr', -, tc⟩ := hT ▸ htrk _
    generalize hR : mount_and_install_register env title_id title_name _ = R
    obtain ⟨res, l, hl, hiff, lb, lr, -, lc, hfail⟩ := hR ▸ hreg _
    generalize env.nmount_nullfs (tr ++ [Event.mkdir (bind_target title_id),
      Event.remount_system_ex, Event.unmount (bind_target title_id)]) src_path
      (bind_target title_id) = ret at *
    have hC : ∀ r, Event.sceAppInstUtilAppInstallTitleDir title_id r ∉ C := fun r =>
      not_mem_of_countP_eq_zero cr rfl
    have hT' : ∀ r, Event.sceAppInstUtilAppInstallTitleDir title_id r ∉ T := fun r =>
      not_mem_of_countP_eq_zero tr' rfl
    have hl' : ∀ r, Event.sceAppInstUtilAppInstallTitleDir title_id r ∉ l := fun r =>
      not_mem_of_countP_eq_zero lr rfl
    refine ⟨?_, by simp, ?_, fun h => h.elim, fun _ => ⟨?_, ?_⟩⟩
    · simp [hl, List.countP_cons, List.countP_append, cb, tb, lb, Event.is_bind,
        -List.countP_eq_zero]
    · rw [hiff, hl]
      constructor
      · intro h
        exact ⟨hge, res, by simp, h⟩
      · rintro ⟨-, r, hmem, hr⟩
        have : r = res := by
          simpa [hC, hT', hl'] using hmem
        exact this ▸ hr
    · simp [hl, List.countP_cons, List.countP_append, cr, tr', lr, Event.is_registration,
        -List.countP_eq_zero]
    · intro hf
      refine ⟨[Event.mkdir (bind_target title_id), Event.remount_system_ex,
        Event.unmount (bind_target title_id)] ++
        [Event.mount_nullfs src_path (bind_target title_id) ret] ++ C ++ T, res, ?_, ?_, ?_⟩
      · rw [hl, hfail hf]
      · rw [← hiff, hf]; simp
      · simp [List.countP_cons, List.countP_append, cc, tc, Event.is_copy, -List.countP_eq_zero]

/-- What one call of `mount_and_install` emits: one bind, no clock read; once the bind has
succeeded one registration and, unless remounting, the two copies. -/
theorem mount_and_install_counts (env : Env) (src_path title_id title_name : CStr)
    (is_remount : Bool) (tr : Trace) :
    (mount_and_install env src_path title_id title_name is_remount tr).2.countP
      Event.is_bind = 1 ∧
    Event.mount_nullfs src_path (bind_target title_id)
      (mount_and_install_bind_ret env src_path title_id tr) ∈
      (mount_and_install env src_path title_id title_name is_remount tr).2 ∧
    (mount_and_install env src_path title_id title_name is_remount tr).2.countP
      Event.is_gate = 0 ∧
    (mount_and_install env src_path title_id title_name is_remount tr).2.countP
      Event.is_registration
      = (if 0 ≤ mount_and_install_bind_ret env src_path title_id tr then 1 else 0) ∧
    (mount_and_install env src_path title_id title_name is_remount tr).2.countP
      Event.is_copy
      = (if 0 ≤ mount_and_install_bind_ret env src_path title_id tr ∧ is_remount = false
          then 2 else 0) ∧
    (0 ≤ mount_and_install_bind_ret env src_path title_id tr → is_remount = false →
      Event.copy_dir (sce_sys_path src_path) (user_sce_sys title_id) ∈
        (mount_and_install env src_path title_id title_name is_remount tr).2 ∧
      Event.copy_file (icon_src src_path) (icon_dst title_id) ∈
        (mount_and_install env src_path title_id title_name is_remount tr).2) ∧
    (mount_and_install_bind_ret env src_path title_id tr < 0 →
      (mount_and_install env src_path title_id title_name is_remount tr).1 = false) := by
  unfold mount_and_install_bind_ret
  by_cases hret : env.nmount_nullfs (tr ++ [Event.mkdir (bind_target title_id),
      Event.remount_system_ex, Event.unmount (bind_target title_id)]) src_path
      (bind_target title_id) < 0
  · have hnot : ¬ (0 ≤ env.nmount_nullfs (tr ++ [Event.mkdir (bind_target title_id),
      Event.remount_system_ex, Event.unmount (bind_target title_id)]) src_path
      (bind_target title_id)) := not_le.mpr hret
    simp only [mount_and_install, hret, if_true]
    simp [Event.is_bind, Event.is_gate, Event.is_registration, Event.is_copy, hnot]
  · have hge := not_lt.mp hret
    simp only [mount_and_install, hret, if_false]
    have hreg := register_spec env title_id title_name
    have htrk := write_tracker_counts env src_path title_id
    obtain ⟨cb, cr, cg, cc⟩ := copy_files_counts src_path title_id is_remount
    have hmem : is_remount = false →
        Event.copy_dir (sce_sys_path src_path) (user_sce_sys title_id) ∈
          mount_and_install_copy_files src_path title_id is_remount ∧
        Event.copy_file (icon_src src_path) (icon_dst title_id) ∈
          mount_and_install_copy_files src_path title_id is_remount := by
      intro h
      subst h
      simp [mount_and_install_copy_files]
    generalize mount_and_install_copy_files src_path title_id is_remount = C at *
    generalize hT : mount_and_install_write_tracker env src_path title_id _ = T
    obtain ⟨tb, tr', tg, tc⟩ := hT ▸ htrk _
    generalize hR : mount_and_install_register env title_id title_name _ = R
    obtain ⟨res, l, hl, hiff, lb, lr, lg, lc, hfail⟩ := hR ▸ hreg _
    generalize env.nmount_nullfs (tr ++ [Event.mkdir (bind_target title_id),
      Event.remount_system_ex, Event.unmount (bind_target title_id)]) src_path
      (bind_target title_id) = ret at *
    refine ⟨?_, by simp, ?_, ?_, ?_, ?_, fun h => h.elim⟩
    · simp [hl, List.countP_cons, List.countP_append, cb, tb, lb, Event.is_bind,
        -List.countP_eq_zero]
    · simp [hl, List.countP_cons, List.countP_append, cg, tg, lg, Event.is_gate,
        -List.countP_eq_zero]
    · simp [hl, List.countP_cons, List.countP_append, cr, tr', lr, Event.is_registration, hge,
        -List.countP_eq_zero]
    · cases is_remount <;>
        simp [hl, List.countP_cons, List.countP_append, cc, tc, lc, Event.is_copy, hge,
          -List.countP_eq_zero]
    · intro _ h
      have := hmem h
      simp [this.1, this.2]

/-! ## The stability gate -/

/-- The gate only reads the clock and `stat`s, logs and sleeps. -/
theorem wait_for_stability_fast_quiet (env : Env) (path name : CStr) (tr : Trace) :
    ∀ e ∈ (wait_for_stability_fast env path name tr).2,
      e.is_bind = false ∧ e.is_copy = false ∧ e.is_file_write = false ∧
      e.is_registration = false ∧ e.is_mkdir = false := by
  unfold wait_for_stability_fast
  simp only []
  split
  · simp [Event.is_bind, Event.is_copy, Event.is_file_write, Event.is_registration,
      Event.is_mkdir]
  · split
    · split
      · split <;>
          simp [Event.is_bind, Event.is_copy, Event.is_file_write, Event.is_registration,
            Event.is_mkdir]
      · simp [Event.is_bind, Event.is_copy, Event.is_file_write, Event.is_registration,
          Event.is_mkdir]
    · simp [Event.is_bind, Event.is_copy, Event.is_file_write, Event.is_registration,
        Event.is_mkdir]

/-- C6: with `now` the clock value read on entry, `root` what `stat` reports for the bundle root
and `sys` what it reports for `<path>/sce_sys` (`none`: it cannot be stat'ed),
`wait_for_stability_fast` returns `true` exactly when `now - root.mtime > 10` and (`sys` is
`none` or `now - sys.mtime > 10`).  So a root 5 seconds old is not stable, root and `sce_sys`
both 15 seconds old are stable, a 15 seconds old root without `sce_sys` is stable, and a root
exactly 10 seconds old is not stable. -/
theorem wait_for_stability_fast_iff (env : Env) (path name : CStr) (tr : Trace)
    (now : Int) (root : Stat) (sys : Option Stat)
    (hnow : env.time tr = now)
    (hroot : env.stat (tr ++ [Event.time now]) path = some root)
    (hsys : env.stat (tr ++ ([Event.time now] ++ [Event.stat path (some root)]))
      (sce_sys_path path) = sys) :
    ((wait_for_stability_fast env path name tr).1 = true ↔
      now - root.mtime > 10 ∧ (sys = none ∨ ∃ s, sys = some s ∧ now - s.mtime > 10)) ∧
    (now - root.mtime = 5 → (wait_for_stability_fast env path name tr).1 = false) ∧
    (now - root.mtime = 15 → (∃ s, sys = some s ∧ now - s.mtime = 15) →
      (wait_for_stability_fast env path name tr).1 = true) ∧
    (now - root.mtime = 15 → sys = none →
      (wait_for_stability_fast env path name tr).1 = true) ∧
    (now - root.mtime = 10 → (wait_for_stability_fast env path name tr).1 = false) := by
  have key : (wait_for_stability_fast env path name tr).1 = true ↔
      now - root.mtime > 10 ∧ (sys = none ∨ ∃ s, sys = some s ∧ now - s.mtime > 10) := by
    unfold wait_for_stability_fast
    simp only [hnow, hroot]
    by_cases hd : now - root.mtime > 10
    · simp only [hd, if_true, hsys, true_and]
      cases sys with
      | none => simp
      | some s =>
        simp only []
        by_cases hs : now - s.mtime > 10 <;> simp [hs]
    · simp [hd]
  refine ⟨key, ?_, ?_, ?_, ?_⟩
  · intro h5
    have : ¬ (wait_for_stability_fast env path name tr).1 = true := by
      rw [key]; rintro ⟨h, -⟩; omega
    simpa using this
  · rintro h15 ⟨s, hs, hs15⟩
    exact key.2 ⟨by omega, Or.inr ⟨s, hs, by omega⟩⟩
  · intro h15 hn
    exact key.2 ⟨by omega, Or.inl hn⟩
  · intro h10
    have : ¬ (wait_for_stability_fast env path name tr).1 = true := by
      rw [key]; rintro ⟨h, -⟩; omega
    simpa using this

theorem wait_for_stability_fast_iff_witness :
    (wait_for_stability_fast env_installed "/roots/pkgA".toList "Game A".toList []).1 = true :=
  ((wait_for_stability_fast_iff env_installed "/roots/pkgA".toList "Game A".toList [] 100
    ⟨true, 0⟩ (some ⟨true, 0⟩) rfl rfl rfl).1).2
    ⟨by decide, Or.inr ⟨⟨true, 0⟩, rfl, by decide⟩⟩

/-! ## Reconcile step: the three acting rows -/

theorem initCache_not_processed (title_id : CStr) :
    ¬ ∃ c ∈ initCache, c.valid = true ∧ c.title_id = title_id := by
  rintro ⟨c, hc, hv, -⟩
  rw [initCache, List.mem_replicate] at hc
  rw [hc.2] at hv
  exact Bool.false_ne_true hv

/-- C4: for a bundle that is not mounted, not cached and installed, the reconcile step is, after
its two probes and two log lines (`pre`), exactly one call `mount_and_install (.., true)`; the
stability gate is not consulted (no clock read).  That call makes exactly one bind call, no
`copy_dir` or `copy_file` call, and exactly one registration call when the bind returned a value
`>= 0` (none otherwise).  `g_mounted_count` grows by one exactly when the call returns `true`,
and `g_installed_count` is unchanged. -/
theorem reconcile_step_remount_only (env : Env) (full_path title_id title_name : CStr)
    (st : State)
    (hm : (is_data_mounted env title_id
      (st.trace ++ (is_installed env title_id st.trace).2)).1 = false)
    (hc : ¬ ∃ c ∈ st.cache, c.valid = true ∧ c.title_id = title_id)
    (hi : (is_installed env title_id st.trace).1 = true) :
    ∃ pre ev,
      pre = [Event.stat (install_dir title_id) (env.stat st.trace (install_dir title_id)),
        Event.access (mount_marker title_id) false,
        Event.log_debug "[PROCESS] %s (%s) - installed=%d" [title_name, title_id],
        Event.log_debug "[MOUNT] %s" [title_name]] ∧
      ev = (mount_and_install env full_path title_id title_name true (st.trace ++ pre)).2 ∧
      reconcile_step env full_path title_id title_name st =
        { cache := cache_add full_path title_id title_name st.cache,
          g_installed_count := st.g_installed_count,
          g_mounted_count :=
            if (mount_and_install env full_path title_id title_name true (st.trace ++ pre)).1
            then st.g_mounted_count + 1 else st.g_mounted_count,
          trace := st.trace ++ pre ++ ev } ∧
      ev.countP Event.is_bind = 1 ∧ ev.countP Event.is_copy = 0 ∧
      ev.countP Event.is_gate = 0 ∧
      ev.countP Event.is_registration =
        (if 0 ≤ mount_and_install_bind_ret env full_path title_id (st.trace ++ pre)
          then 1 else 0) := by
  have hc' : already_processed st.cache title_id = false := by
    rw [← Bool.not_eq_true, already_processed_iff]; exact hc
  refine ⟨_, _, rfl, rfl, ?_, ?_⟩
  · simp only [reconcile_step, hm, hc', hi, if_true, Bool.false_eq_true, if_false]
    simp only [is_data_mounted, is_installed] at hm
    simp only [is_data_mounted, is_installed, hm, List.append_assoc, List.singleton_append,
      List.cons_append, List.nil_append]
  · obtain ⟨h1, -, h3, h4, h5, -, -⟩ := mount_and_install_counts env full_path title_id
      title_name true (st.trace ++ [Event.stat (install_dir title_id)
        (env.stat st.trace (install_dir title_id)),
        Event.access (mount_marker title_id) false,
        Event.log_debug "[PROCESS] %s (%s) - installed=%d" [title_name, title_id],
        Event.log_debug "[MOUNT] %s" [title_name]])
    exact ⟨h1, by simpa using h5, h3, h4⟩

theorem reconcile_step_remount_only_witness :
    ∃ pre ev,
      pre = [Event.stat (install_dir "ABCD00002".toList)
          (env_installed.stat initState.trace (install_dir "ABCD00002".toList)),
        Event.access (mount_marker "ABCD00002".toList) false,
        Event.log_debug "[PROCESS] %s (%s) - installed=%d" ["Game B".toList, "ABCD00002".toList],
        Event.log_debug "[MOUNT] %s" ["Game B".toList]] ∧
      ev = (mount_and_install env_installed "/roots/pkgB".toList "ABCD00002".toList
        "Game B".toList true (initState.trace ++ pre)).2 ∧
      reconcile_step env_installed "/roots/pkgB".toList "ABCD00002".toList "Game B".toList
          initState =
        { cache := cache_add "/roots/pkgB".toList "ABCD00002".toList "Game B".toList
            initState.cache,
          g_installed_count := initState.g_installed_count,
          g_mounted_count :=
            if (mount_and_install env_installed "/roots/pkgB".toList "ABCD00002".toList
              "Game B".toList true (initState.trace ++ pre)).1
            then initState.g_mounted_count + 1 else initState.g_mounted_count,
          trace := initState.trace ++ pre ++ ev } ∧
      ev.countP Event.is_bind = 1 ∧ ev.countP Event.is_copy = 0 ∧
      ev.countP Event.is_gate = 0 ∧
      ev.countP Event.is_registration =
        (if 0 ≤ mount_and_install_bind_ret env_installed "/roots/pkgB".toList
          "ABCD00002".toList (initState.trace ++ pre) then 1 else 0) :=
  reconcile_step_remount_only env_installed "/roots/pkgB".toList "ABCD00002".toList
    "Game B".toList initState rfl (initCache_not_processed _) rfl

/-- C5: for a bundle that is not mounted, not cached and not installed, the reconcile step
consults the stability gate after its two probes and two log lines (`pre`).  When the gate
returns `false` the step ends there: no bind, copy, directory creation, file write or
registration, and both counters keep their value.  When the gate returns `true` the step makes
exactly one call `mount_and_install (.., false)`: one bind call and, once the bind has returned a
value `>= 0`, the metadata directory and the icon are copied and the backend is called once;
`g_installed_count` grows by one exactly when that call returns `true`.  So there is a bind call
in the step exactly when the gate returned `true`. -/
theorem reconcile_step_fresh_install (env : Env) (full_path title_id title_name : CStr)
    (st : State)
    (hm : (is_data_mounted env title_id
      (st.trace ++ (is_installed env title_id st.trace).2)).1 = false)
    (hc : ¬ ∃ c ∈ st.cache, c.valid = true ∧ c.title_id = title_id)
    (hi : (is_installed env title_id st.trace).1 = false) :
    ∃ pre gate r,
      pre = [Event.stat (install_dir title_id) (env.stat st.trace (install_dir title_id)),
        Event.access (mount_marker title_id) false,
        Event.log_debug "[PROCESS] %s (%s) - installed=%d" [title_name, title_id],
        Event.log_debug "[INSTALL] %s (%s)" [title_name, title_id]] ∧
      gate = wait_for_stability_fast env full_path title_name (st.trace ++ pre) ∧
      r = mount_and_install env full_path title_id title_name false
        (st.trace ++ pre ++ gate.2) ∧
      (∀ e ∈ pre ++ gate.2, e.is_bind = false ∧ e.is_copy = false ∧ e.is_file_write = false ∧
        e.is_registration = false ∧ e.is_mkdir = false) ∧
      (gate.1 = false →
        reconcile_step env full_path title_id title_name st =
          { cache := cache_add full_path title_id title_name st.cache,
            g_installed_count := st.g_installed_count,
            g_mounted_count := st.g_mounted_count,
            trace := st.trace ++ pre ++ gate.2 }) ∧
      (gate.1 = true →
        reconcile_step env full_path title_id title_name st =
          { cache := cache_add full_path title_id title_name st.cache,
            g_installed_count :=
              if r.1 then st.g_installed_count + 1 else st.g_installed_count,
            g_mounted_count := st.g_mounted_count,
            trace := st.trace ++ pre ++ gate.2 ++ r.2 } ∧
        r.2.countP Event.is_bind = 1 ∧
        (0 ≤ mount_and_install_bind_ret env full_path title_id (st.trace ++ pre ++ gate.2) →
          Event.copy_dir (sce_sys_path full_path) (user_sce_sys title_id) ∈ r.2 ∧
          Event.copy_file (icon_src full_path) (icon_dst title_id) ∈ r.2 ∧
          r.2.countP Event.is_copy = 2 ∧ r.2.countP Event.is_registration = 1)) ∧
      ∃ new, (reconcile_step env full_path title_id title_name st).trace = st.trace ++ new ∧
        new.countP Event.is_bind = (if gate.1 then 1 else 0) := by
  have hc' : already_processed st.cache title_id = false := by
    rw [← Bool.not_eq_true, already_processed_iff]; exact hc
  obtain ⟨pre, hpre⟩ : ∃ pre : List Event, pre =
      [Event.stat (install_dir title_id) (env.stat st.trace (install_dir title_id)),
        Event.access (mount_marker title_id) false,
        Event.log_debug "[PROCESS] %s (%s) - installed=%d" [title_name, title_id],
        Event.log_debug "[INSTALL] %s (%s)" [title_name, title_id]] := ⟨_, rfl⟩
  have hstep : reconcile_step env full_path title_id title_name st =
      if (wait_for_stability_fast env full_path title_name (st.trace ++ pre)).1 = true then
        { cache := cache_add full_path title_id title_name st.cache,
          g_installed_count :=
            if (mount_and_install env full_path title_id title_name false
              (st.trace ++ pre ++
                (wait_for_stability_fast env full_path title_name (st.trace ++ pre)).2)).1
            then st.g_installed_count + 1 else st.g_installed_count,
          g_mounted_count := st.g_mounted_count,
          trace := st.trace ++ pre ++
            (wait_for_stability_fast env full_path title_name (st.trace ++ pre)).2 ++
            (mount_and_install env full_path title_id title_name false
              (st.trace ++ pre ++
                (wait_for_stability_fast env full_path title_name (st.trace ++ pre)).2)).2 }
      else
        { cache := cache_add full_path title_id title_name st.cache,
          g_installed_count := st.g_installed_count,
          g_mounted_count := st.g_mounted_count,
          trace := st.trace ++ pre ++
            (wait_for_stability_fast env full_path title_name (st.trace ++ pre)).2 } := by
    subst hpre
    simp only [reconcile_step, hm, hc', hi, if_true, Bool.false_eq_true, if_false]
    simp only [is_data_mounted, is_installed] at hm
    simp only [is_data_mounted, is_installed, hm, List.append_assoc, List.singleton_append,
      List.cons_append, List.nil_append, Bool.not_eq_true']
    split_ifs <;> simp_all
  have hquiet : ∀ e ∈ pre ++
      (wait_for_stability_fast env full_path title_name (st.trace ++ pre)).2,
      e.is_bind = false ∧ e.is_copy = false ∧ e.is_file_write = false ∧
        e.is_registration = false ∧ e.is_mkdir = false := by
    intro e he
    rcases List.mem_append.mp he with h | h
    · subst hpre
      simp only [List.mem_cons, List.mem_singleton, List.not_mem_nil, or_false] at h
      rcases h with h | h | h | h <;> subst h <;>
        simp [Event.is_bind, Event.is_copy, Event.is_file_write, Event.is_registration,
          Event.is_mkdir]
    · exact wait_for_stability_fast_quiet env full_path title_name (st.trace ++ pre) e h
  have hzero : (pre ++ (wait_for_stability_fast env full_path title_name
      (st.trace ++ pre)).2).countP Event.is_bind = 0 := by
    rw [List.countP_eq_zero]
    intro e he
    simp [(hquiet e he).1]
  obtain ⟨h1, -, -, h4, h5, h6, -⟩ := mount_and_install_counts env full_path title_id
    title_name false (st.trace ++ pre ++
      (wait_for_stability_fast env full_path title_name (st.trace ++ pre)).2)
  refine ⟨pre, _, _, hpre, rfl, rfl, hquiet, ?_, ?_, ?_⟩
  · intro hg
    rw [hstep, if_neg (by simp [hg])]
  · intro hg
    rw [hstep, if_pos hg]
    refine ⟨rfl, h1, fun hret => ?_⟩
    have h6' := h6 hret rfl
    rw [if_pos hret] at h4
    rw [if_pos ⟨hret, rfl⟩] at h5
    exact ⟨h6'.1, h6'.2, h5, h4⟩
  · rw [hstep]
    by_cases hg : (wait_for_stability_fast env full_path title_name (st.trace ++ pre)).1 = true
    · rw [if_pos hg]
      refine ⟨_, List.append_assoc _ _ _ |>.trans (List.append_assoc _ _ _), ?_⟩
      rw [← List.append_assoc, List.countP_append, hzero, h1]
      simp [hg]
    · rw [if_neg hg]
      refine ⟨_, List.append_assoc _ _ _, ?_⟩
      rw [hzero]
      simp [hg]

theorem reconcile_step_fresh_install_witness :
    ∃ pre gate r,
      pre = [Event.stat (install_dir "ABCD00001".toList)
          (env_fresh.stat initState.trace (install_dir "ABCD00001".toList)),
        Event.access (mount_marker "ABCD00001".toList) false,
        Event.log_debug "[PROCESS] %s (%s) - installed=%d" ["Game A".toList, "ABCD00001".toList],
        Event.log_debug "[INSTALL] %s (%s)" ["Game A".toList, "ABCD00001".toList]] ∧
      gate = wait_for_stability_fast env_fresh "/roots/pkgA".toList "Game A".toList
        (initState.trace ++ pre) ∧
      r = mount_and_install env_fresh "/roots/pkgA".toList "ABCD00001".toList "Game A".toList
        false (initState.trace ++ pre ++ gate.2) ∧
      (∀ e ∈ pre ++ gate.2, e.is_bind = false ∧ e.is_copy = false ∧ e.is_file_write = false ∧
        e.is_registration = false ∧ e.is_mkdir = false) ∧
      (gate.1 = false →
        reconcile_step env_fresh "/roots/pkgA".toList "ABCD00001".toList "Game A".toList
            initState =
          { cache := cache_add "/roots/pkgA".toList "ABCD00001".toList "Game A".toList
              initState.cache,
            g_installed_count := initState.g_installed_count,
            g_mounted_count := initState.g_mounted_count,
            trace := initState.trace ++ pre ++ gate.2 }) ∧
      (gate.1 = true →
        reconcile_step env_fresh "/roots/pkgA".toList "ABCD00001".toList "Game A".toList
            initState =
          { cache := cache_add "/roots/pkgA".toList "ABCD00001".toList "Game A".toList
              initState.cache,
            g_installed_count :=
              if r.1 then initState.g_installed_count + 1 else initState.g_installed_count,
            g_mounted_count := initState.g_mounted_count,
            trace := initState.trace ++ pre ++ gate.2 ++ r.2 } ∧
        r.2.countP Event.is_bind = 1 ∧
        (0 ≤ mount_and_install_bind_ret env_fresh "/roots/pkgA".toList "ABCD00001".toList
            (initState.trace ++ pre ++ gate.2) →
          Event.copy_dir (sce_sys_path "/roots/pkgA".toList) (user_sce_sys "ABCD00001".toList)
            ∈ r.2 ∧
          Event.copy_file (icon_src "/roots/pkgA".toList) (icon_dst "ABCD00001".toList) ∈ r.2 ∧
          r.2.countP Event.is_copy = 2 ∧ r.2.countP Event.is_registration = 1)) ∧
      ∃ new, (reconcile_step env_fresh "/roots/pkgA".toList "ABCD00001".toList
          "Game A".toList initState).trace = initState.trace ++ new ∧
        new.countP Event.is_bind = (if gate.1 then 1 else 0) :=
  reconcile_step_fresh_install env_fresh "/roots/pkgA".toList "ABCD00001".toList
    "Game A".toList initState rfl (initCache_not_processed _) rfl

/-! ## The descriptor reader -/

theorem extract_loop_length (room : Nat) (escape : Bool) (p : CStr) :
    (extract_loop room escape p).length ≤ room := by
  induction p generalizing room escape with
  | nil => simp [extract_loop]
  | cons c rest ih =>
    unfold extract_loop
    split_ifs with h0 h1 h2
    · simp
    · simp
    · exact ih room true
    · have := ih (room - 1) false
      simp only [List.length_cons]
      omega

theorem extract_loop_eq_nil (room : Nat) (hroom : 0 < room) (v : CStr) :
    extract_loop room false v = [] ↔ v = [] ∨ v.head? = some QUOTE ∨ v = [BACKSLASH] := by
  have hne : room ≠ 0 := Nat.pos_iff_ne_zero.mp hroom
  cases v with
  | nil => simp [extract_loop]
  | cons c rest =>
    unfold extract_loop
    by_cases hq : c = QUOTE
    · simp [hne, hq]
    · by_cases hb : c = BACKSLASH
      · subst hb
        cases rest with
        | nil => simp [hne, hq, extract_loop]
        | cons d r => simp [hne, hq, extract_loop]
      · simp [hne, hq, hb]

theorem strstr_suffix (hay needle p : CStr) (h : strstr hay needle = some p) : p <:+ hay := by
  induction hay with
  | nil =>
    unfold strstr at h
    split_ifs at h
    simp only [Option.some.injEq] at h
    subst h
    exact List.suffix_refl _
  | cons c cs ih =>
    unfold strstr at h
    split_ifs at h
    · simp only [Option.some.injEq] at h
      subst h
      exact List.suffix_refl _
    · exact (ih h).trans (List.suffix_cons c cs)

/-- When `get_game_info` returns `true`, the buffer part ran on a file that was read. -/
theorem get_game_info_some (env : Env) (base_path out_name : CStr) (tr : Trace)
    (r : CStr × CStr) (h : (get_game_info env base_path out_name tr).1 = some r) :
    ∃ bytes, env.read_file (tr ++ (fix_application_drm_type env (descriptor_path base_path) tr).2)
        (descriptor_path base_path) false = some bytes ∧
      0 < bytes.length ∧ bytes.length < 1024 * 1024 ∧
      get_game_info_buffer (cstr bytes) out_name = some r := by
  unfold get_game_info at h
  simp only [] at h
  split at h
  · exact absurd h (by simp)
  · rename_i bytes hb
    by_cases h1 : 0 < bytes.length ∧ bytes.length < 1024 * 1024
    · rw [if_pos h1] at h
      by_cases h2 : env.malloc (tr ++ ((fix_application_drm_type env (descriptor_path base_path)
          tr).2 ++ [Event.fopen (descriptor_path base_path) "rb" true])) (bytes.length + 1) = true
      · rw [if_pos h2] at h
        exact ⟨bytes, hb, h1.1, h1.2, h⟩
      · rw [if_neg h2] at h
        exact absurd h (by simp)
    · rw [if_neg h1] at h
      exact absurd h (by simp)

theorem extract_json_string_ok (json key : CStr) (out_size : Nat) (out : CStr)
    (h : extract_json_string json key out_size = .ok out) :
    ∃ v, json_value_start json key = .ok v ∧ out = extract_loop (out_size - 1) false v := by
  unfold extract_json_string at h
  cases hv : json_value_start json key with
  | error e => rw [hv] at h; exact absurd h (by simp)
  | ok v =>
    rw [hv] at h
    simp only [Except.ok.injEq] at h
    exact ⟨v, rfl, h.symm⟩

theorem extract_json_string_error (json key : CStr) (out_size : Nat) (e : Int)
    (h : extract_json_string json key out_size = .error e) :
    json_value_start json key = .error e := by
  unfold extract_json_string at h
  cases hv : json_value_start json key with
  | error e' =>
    rw [hv] at h
    simp only [Except.error.injEq] at h
    rw [h]
  | ok v => rw [hv] at h; exact absurd h (by simp)

/-- What the buffer part of `get_game_info` returns: the identifier comes from `"titleId"` when
that key yields a value and from `"title_id"` only when it does not; the name comes from the
first `"titleName"` after `"en-US"`, else from the first `"titleName"`, else it is the
identifier. -/
theorem get_game_info_buffer_some (buf : CStr) (id name : CStr)
    (h : get_game_info_buffer buf [] = some (id, name)) :
    ∃ v o, (json_value_start buf "titleId".toList = .ok v ∨
        ((∃ e, json_value_start buf "titleId".toList = .error e) ∧
          json_value_start buf "title_id".toList = .ok v)) ∧
      id = extract_loop (MAX_TITLE_ID - 1) false v ∧
      ((∀ s, s <:+ buf → ∀ n,
          extract_json_string s "titleName".toList MAX_TITLE_NAME = .ok n → n = []) →
        name = id) ∧
      (id ≠ [] → name ≠ []) ∧
      (extract_json_string
          (match strstr buf (QUOTE :: "en-US".toList ++ [QUOTE]) with
            | some en_ptr => en_ptr
            | none => buf) "titleName".toList MAX_TITLE_NAME = .ok o ∨
        ((∃ e, extract_json_string
            (match strstr buf (QUOTE :: "en-US".toList ++ [QUOTE]) with
              | some en_ptr => en_ptr
              | none => buf) "titleName".toList MAX_TITLE_NAME = .error e) ∧
          extract_json_string buf "titleName".toList MAX_TITLE_NAME = .ok o) ∨
        ((∃ e, extract_json_string
            (match strstr buf (QUOTE :: "en-US".toList ++ [QUOTE]) with
              | some en_ptr => en_ptr
              | none => buf) "titleName".toList MAX_TITLE_NAME = .error e) ∧
          (∃ e, extract_json_string buf "titleName".toList MAX_TITLE_NAME = .error e) ∧
          o = [])) ∧
      name = (if o = [] then id else o) := by
  unfold get_game_info_buffer at h
  dsimp only at h
  have hss' : (match strstr buf (QUOTE :: "en-US".toList ++ [QUOTE]) with
      | some en_ptr => en_ptr
      | none => buf) <:+ buf := by
    split
    · rename_i p hp
      exact strstr_suffix _ _ _ hp
    · exact List.suffix_refl _
  generalize (match strstr buf (QUOTE :: "en-US".toList ++ [QUOTE]) with
      | some en_ptr => en_ptr
      | none => buf) = ss at h hss' ⊢
  generalize h1 : extract_json_string buf "titleId".toList MAX_TITLE_ID = r1 at h
  generalize h2 : extract_json_string buf "title_id".toList MAX_TITLE_ID = r2 at h
  generalize h3 : extract_json_string ss "titleName".toList MAX_TITLE_NAME = r3 at h ⊢
  generalize h4 : extract_json_string buf "titleName".toList MAX_TITLE_NAME = r4 at h ⊢
  -- the identifier and the name before the fallback
  have hid : ∃ out_id o, (r1 = .ok out_id ∨ ((∃ e, r1 = .error e) ∧ r2 = .ok out_id)) ∧
      (r3 = .ok o ∨ ((∃ e, r3 = .error e) ∧ r4 = .ok o) ∨
        ((∃ e, r3 = .error e) ∧ (∃ e, r4 = .error e) ∧ o = [])) ∧ id = out_id ∧
      name = (if o.length = 0 then snprintf MAX_TITLE_NAME out_id else o) := by
    rcases r1 with e1 | o1 <;> rcases r2 with e2 | o2 <;> rcases r3 with e3 | o3 <;>
      rcases r4 with e4 | o4 <;> simp only [] at h <;>
      first
        | (simp only [Option.some.injEq, Prod.mk.injEq] at h
           obtain ⟨ha, hb⟩ := h
           exact ⟨_, _, by simp, by simp, ha.symm, hb.symm⟩)
        | cases h
  obtain ⟨out_id, o, hr, ho, hio, hn⟩ := hid
  subst hio
  obtain ⟨v, hv, hidv⟩ : ∃ v, (json_value_start buf "titleId".toList = .ok v ∨
      ((∃ e, json_value_start buf "titleId".toList = .error e) ∧
        json_value_start buf "title_id".toList = .ok v)) ∧
      id = extract_loop (MAX_TITLE_ID - 1) false v := by
    rcases hr with hr | ⟨⟨e, he⟩, hr⟩
    · obtain ⟨v, hv, e⟩ := extract_json_string_ok _ _ _ _ (h1.trans hr)
      exact ⟨v, Or.inl hv, e⟩
    · obtain ⟨v, hv, e'⟩ := extract_json_string_ok _ _ _ _ (h2.trans hr)
      exact ⟨v, Or.inr ⟨⟨e, extract_json_string_error _ _ _ _ (h1.trans he)⟩, hv⟩, e'⟩
  have hlen : id.length ≤ MAX_TITLE_NAME - 1 := by
    have := extract_loop_length (MAX_TITLE_ID - 1) false v
    rw [← hidv] at this
    simp only [MAX_TITLE_ID, MAX_TITLE_NAME] at this ⊢
    omega
  have hsn : snprintf MAX_TITLE_NAME id = id := by
    unfold snprintf
    exact List.take_of_length_le hlen
  rw [hsn] at hn
  have hn' : name = (if o = [] then id else o) := by
    rw [hn]
    by_cases ho0 : o = []
    · subst ho0; rfl
    · rw [if_neg (fun hz => ho0 (List.length_eq_zero.mp hz)), if_neg ho0]
  refine ⟨v, o, hv, hidv, ?_, ?_, ho, hn'⟩
  · intro hall
    have ho' : o = [] := by
      rcases ho with ho | ⟨-, ho⟩ | ⟨-, -, ho⟩
      · exact hall ss hss' o (h3.trans ho)
      · exact hall buf (List.suffix_refl _) o (h4.trans ho)
      · exact ho
    rw [hn, ho']
    simp
  · intro hne
    rw [hn]
    split_ifs with hz
    · exact hne
    · intro ho'
      exact hz (by simp [ho'])

/-- C10, as the code has it: when `get_game_info` returns `true`, `title_id` is the value
extracted for the first `"titleId"` key of the file it read, and the value extracted for the first
`"title_id"` key only when no value can be extracted for `"titleId"`; with `v` the text after the
opening quote of that value, `title_id` is empty exactly when `v` is empty, starts with the
closing quote, or is a lone backslash, and non-empty otherwise.  `title_name` is the value `o`
extracted for the first `"titleName"` after `"en-US"` (from the start when there is no `"en-US"`),
else for the first `"titleName"` of the file, and `title_id` when that value is empty or there is
none; so `title_name` equals `title_id` whenever no non-empty `titleName` value can be extracted
anywhere in the descriptor, and `title_name` is non-empty whenever `title_id` is. -/
theorem get_game_info_descriptor (env : Env) (base_path : CStr) (tr : Trace) (id name : CStr)
    (h : (get_game_info env base_path [] tr).1 = some (id, name)) :
    ∃ bytes v o,
      env.read_file (tr ++ (fix_application_drm_type env (descriptor_path base_path) tr).2)
        (descriptor_path base_path) false = some bytes ∧
      (json_value_start (cstr bytes) "titleId".toList = .ok v ∨
        ((∃ e, json_value_start (cstr bytes) "titleId".toList = .error e) ∧
          json_value_start (cstr bytes) "title_id".toList = .ok v)) ∧
      id = extract_loop (MAX_TITLE_ID - 1) false v ∧
      (id = [] ↔ v = [] ∨ v.head? = some QUOTE ∨ v = [BACKSLASH]) ∧
      ((∀ s, s <:+ cstr bytes → ∀ n,
          extract_json_string s "titleName".toList MAX_TITLE_NAME = .ok n → n = []) →
        name = id) ∧
      (id ≠ [] → name ≠ []) ∧
      (extract_json_string
          (match strstr (cstr bytes) (QUOTE :: "en-US".toList ++ [QUOTE]) with
            | some en_ptr => en_ptr
            | none => cstr bytes) "titleName".toList MAX_TITLE_NAME = .ok o ∨
        ((∃ e, extract_json_string
            (match strstr (cstr bytes) (QUOTE :: "en-US".toList ++ [QUOTE]) with
              | some en_ptr => en_ptr
              | none => cstr bytes) "titleName".toList MAX_TITLE_NAME = .error e) ∧
          extract_json_string (cstr bytes) "titleName".toList MAX_TITLE_NAME = .ok o) ∨
        ((∃ e, extract_json_string
            (match strstr (cstr bytes) (QUOTE :: "en-US".toList ++ [QUOTE]) with
              | some en_ptr => en_ptr
              | none => cstr bytes) "titleName".toList MAX_TITLE_NAME = .error e) ∧
          (∃ e, extract_json_string (cstr bytes) "titleName".toList MAX_TITLE_NAME = .error e) ∧
          o = [])) ∧
      name = (if o = [] then id else o) := by
  obtain ⟨bytes, hb, -, -, hbuf⟩ := get_game_info_some env base_path [] tr (id, name) h
  obtain ⟨v, o, hv, hid, hname, hne, ho, hn⟩ :=
    get_game_info_buffer_some (cstr bytes) id name hbuf
  refine ⟨bytes, v, o, hb, hv, hid, ?_, hname, hne, ho, hn⟩
  rw [hid]
  exact extract_loop_eq_nil (MAX_TITLE_ID - 1) (by decide) v

/-- On the descriptor `descriptor_both_ids`, which has both keys, `get_game_info` returns the
value of `"titleId"`, although `"title_id"` comes first in the file. -/
theorem get_game_info_descriptor_witness :
    (get_game_info (env_descriptor descriptor_both_ids) "/roots/pkgA".toList [] []).1 =
      some ("ABCD00001".toList, "ABCD00001".toList) ∧
    ∃ bytes v,
      (env_descriptor descriptor_both_ids).read_file
        ([] ++ (fix_application_drm_type (env_descriptor descriptor_both_ids)
          (descriptor_path "/roots/pkgA".toList) []).2)
        (descriptor_path "/roots/pkgA".toList) false = some bytes ∧
      (json_value_start (cstr bytes) "titleId".toList = .ok v ∨
        ((∃ e, json_value_start (cstr bytes) "titleId".toList = .error e) ∧
          json_value_start (cstr bytes) "title_id".toList = .ok v)) ∧
      "ABCD00001".toList = extract_loop (MAX_TITLE_ID - 1) false v :=
  ⟨by decide,
    let ⟨bytes, v, _, hb, hv, hid, _⟩ :=
      get_game_info_descriptor (env_descriptor descriptor_both_ids) "/roots/pkgA".toList []
        "ABCD00001".toList "ABCD00001".toList (by decide)
    ⟨bytes, v, hb, hv, hid⟩⟩

/-- C10 fails as stated: on the descriptor `{"titleId": ""}` the function `get_game_info` returns
`true` with an empty `title_id` (and an empty `title_name`). -/
theorem get_game_info_empty_title_id :
    (get_game_info (env_descriptor descriptor_empty_id) "/roots/pkgE".toList [] []).1
      = some ([], []) := by
  decide

/-! ## Induction over a scan -/

theorem foldlM_rel {α β : Type} (P : β → β → Prop) (hrefl : ∀ s, P s s)
    (htrans : ∀ a b c, P a b → P b c → P a c) (f : β → α → Option β) (l : List α)
    (hf : ∀ s x s', x ∈ l → f s x = some s' → P s s') :
    ∀ s s', l.foldlM f s = some s' → P s s' := by
  induction l with
  | nil =>
    intro s s' h
    simp only [List.foldlM_nil, pure, Option.some.injEq] at h
    exact h ▸ hrefl s
  | cons x xs ih =>
    intro s s' h
    simp only [List.foldlM_cons, bind, Option.bind_eq_some] at h
    obtain ⟨s1, h1, h2⟩ := h
    exact htrans _ _ _ (hf s x s1 (List.mem_cons_self _ _) h1)
      (ih (fun s x s' hx => hf s x s' (List.mem_cons_of_mem _ hx)) s1 s' h2)

theorem foldlM_total {α β : Type} (f : β → α → Option β) (l : List α)
    (hf : ∀ s x, x ∈ l → ∃ s', f s x = some s') :
    ∀ s, ∃ s', l.foldlM f s = some s' := by
  induction l with
  | nil => intro s; exact ⟨s, rfl⟩
  | cons x xs ih =>
    intro s
    obtain ⟨s1, h1⟩ := hf s x (List.mem_cons_self _ _)
    obtain ⟨s2, h2⟩ := ih (fun s x hx => hf s x (List.mem_cons_of_mem _ hx)) s1
    exact ⟨s2, by simp only [List.foldlM_cons, bind, Option.bind_eq_some]; exact ⟨s1, h1, h2⟩⟩

theorem ScanRel.emit2 {env : Env} {P : State → State → Prop} (hP : ScanRel env P) (s : State)
    (ev1 ev2 : List Event) : P s { s with trace := s.trace ++ ev1 ++ ev2 } := by
  rw [List.append_assoc]
  exact hP.emit s _

theorem get_game_info_id_length (env : Env) (base_path out_name : CStr) (tr : Trace)
    (id name : CStr) (h : (get_game_info env base_path out_name tr).1 = some (id, name)) :
    id.length ≤ MAX_TITLE_ID - 1 := by
  obtain ⟨bytes, -, -, -, hbuf⟩ := get_game_info_some env base_path out_name tr (id, name) h
  unfold get_game_info_buffer at hbuf
  dsimp only at hbuf
  generalize h1 : extract_json_string (cstr bytes) "titleId".toList MAX_TITLE_ID = r1 at hbuf
  generalize h2 : extract_json_string (cstr bytes) "title_id".toList MAX_TITLE_ID = r2 at hbuf
  have key : r1 = .ok id ∨ r2 = .ok id := by
    rcases r1 with e1 | o1 <;> rcases r2 with e2 | o2 <;> simp only [] at hbuf <;>
      first
        | (simp only [Option.some.injEq, Prod.mk.injEq] at hbuf
           obtain ⟨ha, -⟩ := hbuf
           subst ha
           simp)
        | cases hbuf
  rcases key with hr | hr
  · obtain ⟨v, -, e⟩ := extract_json_string_ok _ _ _ _ (h1.trans hr)
    exact e ▸ extract_loop_length _ _ _
  · obtain ⟨v, -, e⟩ := extract_json_string_ok _ _ _ _ (h2.trans hr)
    exact e ▸ extract_loop_length _ _ _

theorem scan_entry_rel (env : Env) (P : State → State → Prop) (hP : ScanRel env P)
    (recurse : CStr → Int → State → Option State)
    (hrec : ∀ p d s s', recurse p d s = some s' → P s s')
    (dir_path : CStr) (depth : Int) (st st' : State) (d_name : CStr)
    (h : scan_entry env recurse dir_path depth st d_name = some st') : P st st' := by
  unfold scan_entry at h
  split_ifs at h with hdot
  · simp only [Option.some.injEq] at h
    exact h ▸ hP.refl st
  · dsimp only at h
    split at h
    · simp only [Option.some.injEq] at h
      exact h ▸ hP.emit st _
    · split_ifs at h with hdir
      · simp only [Option.some.injEq] at h
        exact h ▸ hP.emit st _
      · split at h
        · rename_i title_id title_name hinfo
          simp only [Option.some.injEq] at h
          have hlen := get_game_info_id_length env _ _ _ _ _ hinfo
          rw [← h]
          refine hP.trans _ _ _ ?_ (hP.step _ _ _ _ hlen)
          exact hP.emit2 st _ _
        · refine hP.trans _ _ _ ?_ (hrec _ _ _ _ h)
          exact hP.emit2 st _ _

theorem scan_directory_recursive_rel (env : Env) (P : State → State → Prop)
    (hP : ScanRel env P) :
    ∀ (fuel : Nat) (dir_path : CStr) (depth : Int) (st st' : State),
      scan_directory_recursive env fuel dir_path depth st = some st' → P st st' := by
  intro fuel
  induction fuel with
  | zero => intro _ _ _ _ h; simp [scan_directory_recursive] at h
  | succ fuel ih =>
    intro dir_path depth st st' h
    unfold scan_directory_recursive at h
    split_ifs at h with hd
    · simp only [Option.some.injEq] at h
      exact h ▸ hP.refl st
    · split at h
      · simp only [Option.some.injEq] at h
        exact h ▸ hP.emit st _
      · rename_i entries _
        simp only [Option.map_eq_some'] at h
        obtain ⟨s1, hs1, hs2⟩ := h
        have := foldlM_rel P hP.refl hP.trans _ entries
          (fun s x s' _ hx => scan_entry_rel env P hP _ (fun p d s s' => ih p d s s') _ _ s s' x hx)
          _ _ hs1
        exact hP.trans _ _ _ (hP.emit st _) (hP.trans _ _ _ this (hs2 ▸ hP.emit s1 _))

theorem scan_root_rel (env : Env) (P : State → State → Prop) (hP : ScanRel env P)
    (fuel : Nat) (st st' : State) (root : CStr)
    (h : scan_root env fuel st root = some st') : P st st' := by
  unfold scan_root at h
  dsimp only at h
  split at h
  · split_ifs at h
    · refine hP.trans _ _ _ ?_ (scan_directory_recursive_rel env P hP _ _ _ _ _ h)
      exact hP.emit2 st _ _
    · simp only [Option.some.injEq] at h
      exact h ▸ hP.emit st _
  · simp only [Option.some.injEq] at h
    exact h ▸ hP.emit st _

theorem scan_all_paths_rel (env : Env) (P : State → State → Prop) (hP : ScanRel env P)
    (hclean : ∀ s : State, P s ⟨(cache_cleaner env s.cache s.trace).1, s.g_installed_count,
      s.g_mounted_count, s.trace ++ (cache_cleaner env s.cache s.trace).2⟩)
    (fuel : Nat) (st st' : State) (h : scan_all_paths env fuel st = some st') : P st st' := by
  unfold scan_all_paths at h
  exact hP.trans _ _ _ (hclean st)
    (foldlM_rel P hP.refl hP.trans _ SCAN_PATHS
      (fun s x s' _ hx => scan_root_rel env P hP fuel s s' x hx) _ _ h)

theorem scan_passes_rel (env : Env) (P : State → State → Prop) (hP : ScanRel env P)
    (hclean : ∀ s : State, P s ⟨(cache_cleaner env s.cache s.trace).1, s.g_installed_count,
      s.g_mounted_count, s.trace ++ (cache_cleaner env s.cache s.trace).2⟩)
    (hreset : ∀ s : State, P s { s with g_installed_count := 0, g_mounted_count := 0 })
    (fuel : Nat) :
    ∀ (n : Nat) (st st' : State), scan_passes env fuel n st = some st' → P st st' := by
  intro n
  induction n with
  | zero =>
    intro st st' h
    simp only [scan_passes, Option.some.injEq] at h
    exact h ▸ hP.refl st
  | succ n ih =>
    intro st st' h
    unfold scan_passes at h
    split at h
    · exact absurd h (by simp)
    · rename_i s1 hs1
      exact hP.trans _ _ _ (hreset st)
        (hP.trans _ _ _ (scan_all_paths_rel env P hP hclean fuel _ _ hs1) (ih _ _ h))

/-! ## Termination: the fuel never runs out -/

theorem scan_entry_total (env : Env) (recurse : CStr → Int → State → Option State)
    (hrec : ∀ p d s, ∃ s', recurse p d s = some s')
    (dir_path : CStr) (depth : Int) (st : State) (d_name : CStr) :
    ∃ st', scan_entry env recurse dir_path depth st d_name = some st' := by
  unfold scan_entry
  split_ifs
  · exact ⟨_, rfl⟩
  · dsimp only
    split
    · exact ⟨_, rfl⟩
    · split_ifs
      · exact ⟨_, rfl⟩
      · split
        · exact ⟨_, rfl⟩
        · exact hrec _ _ _

/-- `scan_directory_recursive` returns: the fuel `fuel` is enough for a call at depth `depth` as
soon as `1 <= fuel` and `MAX_RECURSION_DEPTH + 1 - depth < fuel`. -/
theorem scan_directory_recursive_total (env : Env) :
    ∀ (fuel : Nat) (dir_path : CStr) (depth : Int) (st : State),
      1 ≤ fuel → MAX_RECURSION_DEPTH + 1 - depth < fuel →
      ∃ st', scan_directory_recursive env fuel dir_path depth st = some st' := by
  intro fuel
  induction fuel with
  | zero => intro _ _ _ h; omega
  | succ fuel ih =>
    intro dir_path depth st _ hfuel
    unfold scan_directory_recursive
    split_ifs with hd
    · exact ⟨_, rfl⟩
    · split
      · exact ⟨_, rfl⟩
      · rename_i entries _
        simp only [MAX_RECURSION_DEPTH] at hd hfuel
        have hrec : ∀ p d s, d = depth + 1 →
            ∃ s', scan_directory_recursive env fuel p d s = some s' := by
          intro p d s hdd
          subst hdd
          apply ih
          · omega
          · simp only [MAX_RECURSION_DEPTH]; omega
        obtain ⟨s1, hs1⟩ : ∃ s1, entries.foldlM
            (scan_entry env (scan_directory_recursive env fuel) dir_path depth)
            { st with trace := st.trace ++ [Event.opendir dir_path true,
              Event.log_debug "[RECURSIVE] Scanning: %s (depth=%d)" [dir_path]] } = some s1 := by
          apply foldlM_total
          intro s x _
          unfold scan_entry
          split_ifs
          · exact ⟨_, rfl⟩
          · dsimp only
            split
            · exact ⟨_, rfl⟩
            · split_ifs
              · exact ⟨_, rfl⟩
              · split
                · exact ⟨_, rfl⟩
                · exact hrec _ _ _ rfl
        exact ⟨_, by dsimp only; rw [hs1]; rfl⟩

theorem scan_all_paths_total (env : Env) (fuel : Nat) (hfuel : 7 ≤ fuel) (st : State) :
    ∃ st', scan_all_paths env fuel st = some st' := by
  unfold scan_all_paths
  apply foldlM_total
  intro s x _
  unfold scan_root
  dsimp only
  split
  · split_ifs
    · exact scan_directory_recursive_total env fuel _ 0 _ (by omega)
        (by simp only [MAX_RECURSION_DEPTH]; omega)
    · exact ⟨_, rfl⟩
  · exact ⟨_, rfl⟩

theorem scan_passes_total (env : Env) (fuel : Nat) (hfuel : 7 ≤ fuel) :
    ∀ (n : Nat) (st : State), ∃ st', scan_passes env fuel n st = some st' := by
  intro n
  induction n with
  | zero => intro st; exact ⟨st, rfl⟩
  | succ n ih =>
    intro st
    obtain ⟨s1, h1⟩ := scan_all_paths_total env fuel hfuel
      { st with g_installed_count := 0, g_mounted_count := 0 }
    obtain ⟨s2, h2⟩ := ih s1
    exact ⟨s2, by unfold scan_passes; rw [h1]; exact h2⟩

/-! ## The cache: one valid slot per title id -/

theorem already_processed_eq_false_iff (cache : List GameCache) (T : CStr) :
    already_processed cache T = false ↔ slots_of cache T = 0 := by
  unfold already_processed slots_of
  rw [List.countP_eq_zero, ← Bool.not_eq_true, List.any_eq_true]
  constructor
  · intro h c hc hp
    exact h ⟨c, hc, hp⟩
  · rintro h ⟨c, hc, hp⟩
    exact h c hc hp

theorem slots_of_cache_add (full_path title_id title_name : CStr) (T : CStr) :
    ∀ cache : List GameCache,
      slots_of (cache_add full_path title_id title_name cache) T ≤
        slots_of cache T + (if snprintf MAX_TITLE_ID title_id = T then 1 else 0) := by
  intro cache
  induction cache with
  | nil => simp [cache_add, slots_of]
  | cons c cs ih =>
    unfold cache_add
    by_cases hv : c.valid = true
    · simp only [hv, Bool.not_true, Bool.false_eq_true, if_false]
      unfold slots_of at ih ⊢
      simp only [List.countP_cons]
      omega
    · simp only [Bool.not_eq_true] at hv
      simp only [hv, Bool.not_false, if_true]
      unfold slots_of
      simp only [List.countP_cons, hv, Bool.false_and, Bool.false_eq_true, if_false,
        Bool.true_and, decide_eq_true_eq]
      omega

theorem slots_of_cache_cleaner (env : Env) (T : CStr) :
    ∀ (cache : List GameCache) (tr : Trace),
      slots_of (cache_cleaner env cache tr).1 T ≤ slots_of cache T := by
  intro cache
  induction cache with
  | nil => intro tr; simp [cache_cleaner, slots_of]
  | cons c cs ih =>
    intro tr
    by_cases hv : c.valid = true
    · by_cases hok : env.access tr c.path = true
      · have := ih (tr ++ [Event.access c.path true])
        unfold slots_of at this ⊢
        simp only [cache_cleaner, hv, hok, if_true, Bool.not_true, Bool.false_eq_true, if_false,
          List.countP_cons]
        omega
      · simp only [Bool.not_eq_true] at hok
        have := ih (tr ++ [Event.access c.path false,
          Event.log_debug "[CACHE] Removed stale entry: %s" [c.path]])
        unfold slots_of at this ⊢
        simp only [cache_cleaner, hv, hok, if_true, Bool.not_false, List.countP_cons,
          Bool.false_and, Bool.false_eq_true, if_false]
        omega
    · simp only [Bool.not_eq_true] at hv
      have := ih tr
      unfold slots_of at this ⊢
      simp only [cache_cleaner, hv, Bool.false_eq_true, if_false, List.countP_cons,
        Bool.false_and]
      omega

theorem cache_add_mem (full_path title_id title_name : CStr) :
    ∀ cache : List GameCache, (∃ c ∈ cache, c.valid = false) →
      (⟨snprintf MAX_PATH full_path, snprintf MAX_TITLE_ID title_id,
        snprintf MAX_TITLE_NAME title_name, true⟩ : GameCache) ∈
        cache_add full_path title_id title_name cache := by
  intro cache
  induction cache with
  | nil => rintro ⟨c, hc, -⟩; simp at hc
  | cons a as ih =>
    rintro ⟨c, hc, hv⟩
    unfold cache_add
    by_cases ha : a.valid = true
    · simp only [ha, Bool.not_true, Bool.false_eq_true, if_false]
      rcases List.mem_cons.mp hc with h | h
      · subst h; rw [ha] at hv; cases hv
      · exact List.mem_cons_of_mem _ (ih ⟨c, h, hv⟩)
    · simp only [Bool.not_eq_true] at ha
      simp only [ha, Bool.not_false, if_true]
      exact List.mem_cons_self _ _

/-- The cache after a reconcile step: untouched, or one `cache_add` made on a cache miss. -/
theorem reconcile_step_cache (env : Env) (full_path title_id title_name : CStr) (st : State) :
    (reconcile_step env full_path title_id title_name st).cache = st.cache ∨
    (already_processed st.cache title_id = false ∧
      (reconcile_step env full_path title_id title_name st).cache =
        cache_add full_path title_id title_name st.cache) := by
  unfold reconcile_step
  dsimp only
  split_ifs <;>
    first
      | exact Or.inl rfl
      | exact Or.inr ⟨Bool.eq_false_iff.mpr ‹¬already_processed st.cache title_id = true›, rfl⟩

/-- After the reconcile step of a bundle that is not mounted, the cache holds a valid slot for
its title id, as long as a slot was free: a second occurrence of the bundle is a cache hit. -/
theorem reconcile_step_caches (env : Env) (full_path title_id title_name : CStr) (st : State)
    (hlen : title_id.length ≤ MAX_TITLE_ID - 1)
    (hm : (is_data_mounted env title_id
      (st.trace ++ (is_installed env title_id st.trace).2)).1 = false)
    (hfree : ∃ c ∈ st.cache, c.valid = false) :
    ∃ c ∈ (reconcile_step env full_path title_id title_name st).cache,
      c.valid = true ∧ c.title_id = title_id := by
  have hsn : snprintf MAX_TITLE_ID title_id = title_id := by
    unfold snprintf
    exact List.take_of_length_le hlen
  by_cases hp : already_processed st.cache title_id = true
  · have hc : (reconcile_step env full_path title_id title_name st).cache = st.cache := by
      simp only [reconcile_step, hm, hp, if_true, Bool.false_eq_true, if_false]
    rw [hc]
    exact (already_processed_iff _ _).mp hp
  · have hc : (reconcile_step env full_path title_id title_name st).cache =
        cache_add full_path title_id title_name st.cache := by
      rcases reconcile_step_cache env full_path title_id title_name st with h | ⟨-, h⟩
      · simp only [reconcile_step, hm, hp, Bool.false_eq_true, if_false] at h ⊢
        split_ifs <;> rfl
      · exact h
    rw [hc]
    exact ⟨_, cache_add_mem full_path title_id title_name st.cache hfree, rfl, hsn⟩

theorem reconcile_step_unique (env : Env) (full_path title_id title_name : CStr) (st : State)
    (hlen : title_id.length ≤ MAX_TITLE_ID - 1) (h : ∀ T, slots_of st.cache T ≤ 1) :
    ∀ T, slots_of (reconcile_step env full_path title_id title_name st).cache T ≤ 1 := by
  intro T
  rcases reconcile_step_cache env full_path title_id title_name st with hc | ⟨hmiss, hc⟩
  · rw [hc]; exact h T
  · rw [hc]
    have hsn : snprintf MAX_TITLE_ID title_id = title_id := by
      unfold snprintf
      exact List.take_of_length_le hlen
    have hadd := slots_of_cache_add full_path title_id title_name T st.cache
    rw [hsn] at hadd
    by_cases hT : title_id = T
    · subst hT
      rw [already_processed_eq_false_iff] at hmiss
      simp only [if_true] at hadd
      omega
    · simp only [hT, if_false] at hadd
      have := h T
      omega

theorem slots_of_initCache (T : CStr) : slots_of initCache T = 0 := by
  unfold slots_of initCache
  rw [List.countP_eq_zero]
  intro c hc
  rw [List.mem_replicate] at hc
  simp [hc.2]

/-- The uniqueness invariant, as a relation preserved by a scan. -/
theorem unique_scanRel (env : Env) :
    ScanRel env (fun s s' => (∀ T, slots_of s.cache T ≤ 1) → ∀ T, slots_of s'.cache T ≤ 1) where
  refl := fun _ h => h
  trans := fun _ _ _ h1 h2 h => h2 (h1 h)
  emit := fun _ _ h => h
  step := fun s full_path title_id title_name hlen h =>
    reconcile_step_unique env full_path title_id title_name s hlen h

/-- C2: starting from the all-invalid cache, after any number of scan passes (both counters
reset, then `scan_all_paths`: the eviction loop, then the walk of every scan root with its
reconcile steps), under any answers of the filesystem and the backend, every title id `T` has at
most one index `k` with `cache[k].valid` and `cache[k].title_id = T`.  The passes return a state
(any fuel from 7 on is enough), and the invariant is also kept by every single reconcile step
(on a title id that fits `title_id[MAX_TITLE_ID]`) and by the eviction loop alone. -/
theorem cache_title_id_unique (env : Env) (fuel n : Nat) (hfuel : 7 ≤ fuel) :
    (∃ st', scan_passes env fuel n initState = some st' ∧ ∀ T, slots_of st'.cache T ≤ 1) ∧
    (∀ (st : State) (full_path title_id title_name : CStr),
      title_id.length ≤ MAX_TITLE_ID - 1 → (∀ T, slots_of st.cache T ≤ 1) →
      ∀ T, slots_of (reconcile_step env full_path title_id title_name st).cache T ≤ 1) ∧
    (∀ (cache : List GameCache) (tr : Trace), (∀ T, slots_of cache T ≤ 1) →
      ∀ T, slots_of (cache_cleaner env cache tr).1 T ≤ 1) := by
  refine ⟨?_, ?_, ?_⟩
  · obtain ⟨st', hst'⟩ := scan_passes_total env fuel hfuel n initState
    refine ⟨st', hst', ?_⟩
    refine scan_passes_rel env _ (unique_scanRel env) ?_ ?_ fuel n initState st' hst' ?_
    · intro s h T
      exact le_trans (slots_of_cache_cleaner env T s.cache s.trace) (h T)
    · intro s h
      exact h
    · intro T
      rw [show initState.cache = initCache from rfl, slots_of_initCache]
      exact Nat.zero_le _
  · intro st full_path title_id title_name hlen h
    exact reconcile_step_unique env full_path title_id title_name st hlen h
  · intro cache tr h T
    exact le_trans (slots_of_cache_cleaner env T cache tr) (h T)

theorem cache_title_id_unique_witness :
    ∃ st', scan_passes env_fresh 7 2 initState = some st' ∧ ∀ T, slots_of st'.cache T ≤ 1 :=
  (cache_title_id_unique env_fresh 7 2 (by decide)).1

/-! ## The cache: eviction -/

theorem cache_cleaner_slots (env : Env) :
    ∀ (cache : List GameCache) (tr : Trace),
      List.Forall₂ (fun c c' => (c.valid = false → c' = c) ∧
        (c.valid = true → ∃ ok, Event.access c.path ok ∈ (cache_cleaner env cache tr).2 ∧
          c' = { c with valid := ok })) cache (cache_cleaner env cache tr).1 := by
  intro cache
  induction cache with
  | nil => intro tr; simp [cache_cleaner]
  | cons c cs ih =>
    intro tr
    by_cases hv : c.valid = true
    · by_cases hok : env.access tr c.path = true
      · simp only [cache_cleaner, hv, hok, if_true, Bool.not_true, Bool.false_eq_true, if_false]
        refine List.Forall₂.cons
          ⟨(fun h => Bool.noConfusion (hv.symm.trans h)), fun _ => ⟨true, by simp, ?_⟩⟩ ?_
        · cases c; simp only at hv; subst hv; rfl
        · refine (ih (tr ++ [Event.access c.path true])).imp ?_
          rintro a b ⟨h1, h2⟩
          refine ⟨h1, fun ha => ?_⟩
          obtain ⟨ok, hmem, hb⟩ := h2 ha
          exact ⟨ok, List.mem_append_right _ hmem, hb⟩
      · simp only [Bool.not_eq_true] at hok
        simp only [cache_cleaner, hv, hok, if_true, Bool.not_false]
        refine List.Forall₂.cons
          ⟨(fun h => Bool.noConfusion (hv.symm.trans h)), fun _ => ⟨false, by simp, rfl⟩⟩ ?_
        refine (ih (tr ++ [Event.access c.path false,
          Event.log_debug "[CACHE] Removed stale entry: %s" [c.path]])).imp ?_
        rintro a b ⟨h1, h2⟩
        refine ⟨h1, fun ha => ?_⟩
        obtain ⟨ok, hmem, hb⟩ := h2 ha
        exact ⟨ok, List.mem_append_right _ hmem, hb⟩
    · simp only [Bool.not_eq_true] at hv
      simp only [cache_cleaner, hv, Bool.false_eq_true, if_false]
      exact List.Forall₂.cons ⟨fun _ => rfl, (fun h => Bool.noConfusion (hv.symm.trans h))⟩ (ih tr)

theorem cache_cleaner_static (env : Env) (ex : CStr → Bool)
    (hex : ∀ tr p, env.access tr p = ex p) :
    ∀ (cache : List GameCache) (tr : Trace),
      (cache_cleaner env cache tr).1 =
        cache.map (fun c => if c.valid && !ex c.path then { c with valid := false } else c) := by
  intro cache
  induction cache with
  | nil => intro tr; simp [cache_cleaner]
  | cons c cs ih =>
    intro tr
    by_cases hv : c.valid = true
    · by_cases hok : ex c.path = true
      · simp only [cache_cleaner, hv, hex, hok, if_true, Bool.not_true, Bool.false_eq_true,
          if_false, List.map_cons, Bool.and_false, ih]
      · simp only [Bool.not_eq_true] at hok
        simp only [cache_cleaner, hv, hex, hok, if_true, Bool.not_false, List.map_cons,
          Bool.and_true, ih]
    · simp only [Bool.not_eq_true] at hv
      simp only [cache_cleaner, hv, Bool.false_eq_true, if_false, List.map_cons,
        Bool.false_and, ih]

theorem cache_add_keeps_valid (full_path title_id title_name : CStr) :
    ∀ (cache : List GameCache) (k : Nat) (c : GameCache),
      cache[k]? = some c → c.valid = true →
      (cache_add full_path title_id title_name cache)[k]? = some c := by
  intro cache
  induction cache with
  | nil => intro k c h; simp at h
  | cons a as ih =>
    intro k c h hv
    unfold cache_add
    cases k with
    | zero =>
      simp only [List.getElem?_cons_zero, Option.some.injEq] at h
      subst h
      simp [hv]
    | succ k =>
      simp only [List.getElem?_cons_succ] at h
      split_ifs
      · simpa using h
      · simpa using ih k c h hv

theorem reconcile_step_trace_grows (env : Env) (full_path title_id title_name : CStr)
    (st : State) : st.trace <+: (reconcile_step env full_path title_id title_name st).trace := by
  unfold reconcile_step
  dsimp only
  split_ifs <;> simp only [List.append_assoc] <;> exact List.prefix_append _ _

/-- Scans only append to the trace and never touch a valid slot. -/
theorem keeps_valid_scanRel (env : Env) :
    ScanRel env (fun s s' => s.trace <+: s'.trace ∧
      ∀ (k : Nat) (c : GameCache), s.cache[k]? = some c → c.valid = true → s'.cache[k]? = some c) where
  refl := fun _ => ⟨List.prefix_refl _, fun _ _ h _ => h⟩
  trans := fun _ _ _ h1 h2 =>
    ⟨h1.1.trans h2.1, fun (k : Nat) (c : GameCache) h hv => h2.2 k c (h1.2 k c h hv) hv⟩
  emit := fun _ _ => ⟨List.prefix_append _ _, fun _ _ h _ => h⟩
  step := fun s full_path title_id title_name _ =>
    ⟨reconcile_step_trace_grows env full_path title_id title_name s,
      fun (k : Nat) (c : GameCache) h hv => by
        rcases reconcile_step_cache env full_path title_id title_name s with hc | ⟨-, hc⟩
        · rw [hc]; exact h
        · rw [hc]; exact cache_add_keeps_valid _ _ _ _ k c h hv⟩

theorem cache_add_slot (full_path title_id title_name : CStr) :
    ∀ (cache : List GameCache) (k : Nat) (c' : GameCache),
      (cache_add full_path title_id title_name cache)[k]? = some c' →
      cache[k]? = some c' ∨
      c' = ⟨snprintf MAX_PATH full_path, snprintf MAX_TITLE_ID title_id,
        snprintf MAX_TITLE_NAME title_name, true⟩ := by
  intro cache
  induction cache with
  | nil => intro k c' h; simp [cache_add] at h
  | cons a as ih =>
    intro k c' h
    unfold cache_add at h
    split_ifs at h
    · cases k with
      | zero =>
        simp only [List.getElem?_cons_zero, Option.some.injEq] at h
        exact Or.inr h.symm
      | succ k =>
        simp only [List.getElem?_cons_succ] at h
        exact Or.inl (by simpa using h)
    · cases k with
      | zero =>
        simp only [List.getElem?_cons_zero] at h
        exact Or.inl (by simpa using h)
      | succ k =>
        simp only [List.getElem?_cons_succ] at h
        rcases ih k c' h with h' | h'
        · exact Or.inl (by simpa using h')
        · exact Or.inr h'

/-- A reconcile step leaves the cache as it was, or fills a slot after writing its `[PROCESS]`
line. -/
theorem reconcile_step_fills (env : Env) (full_path title_id title_name : CStr) (st : State) :
    ∃ new, (reconcile_step env full_path title_id title_name st).trace = st.trace ++ new ∧
      ((reconcile_step env full_path title_id title_name st).cache = st.cache ∨
        ((reconcile_step env full_path title_id title_name st).cache =
            cache_add full_path title_id title_name st.cache ∧
          Event.log_debug "[PROCESS] %s (%s) - installed=%d" [title_name, title_id] ∈ new)) := by
  unfold reconcile_step
  dsimp only
  split_ifs <;>
    first
      | exact ⟨_, List.append_assoc _ _ _, Or.inl rfl⟩
      | exact ⟨_, by simp only [List.append_assoc]; rfl, Or.inr ⟨rfl, by simp⟩⟩

/-- Over a scan, every slot is what it was or an entry written by a reconcile step of the scan,
whose `[PROCESS]` line is among the new events. -/
theorem fills_scanRel (env : Env) :
    ScanRel env (fun s s' => ∃ new, s'.trace = s.trace ++ new ∧
      ∀ (k : Nat) (c' : GameCache), s'.cache[k]? = some c' →
        s.cache[k]? = some c' ∨
        ∃ full_path title_id title_name : CStr,
          Event.log_debug "[PROCESS] %s (%s) - installed=%d" [title_name, title_id] ∈ new ∧
          c' = ⟨snprintf MAX_PATH full_path, snprintf MAX_TITLE_ID title_id,
            snprintf MAX_TITLE_NAME title_name, true⟩) where
  refl := fun s => ⟨[], by simp, fun _ _ h => Or.inl h⟩
  trans := fun a b c h1 h2 => by
    obtain ⟨n1, e1, k1⟩ := h1
    obtain ⟨n2, e2, k2⟩ := h2
    refine ⟨n1 ++ n2, by rw [e2, e1, List.append_assoc], ?_⟩
    intro k c' h
    rcases k2 k c' h with hb | ⟨p, i, n, hm, he⟩
    · rcases k1 k c' hb with ha | ⟨p, i, n, hm, he⟩
      · exact Or.inl ha
      · exact Or.inr ⟨p, i, n, List.mem_append_left _ hm, he⟩
    · exact Or.inr ⟨p, i, n, List.mem_append_right _ hm, he⟩
  emit := fun s ev => ⟨ev, rfl, fun _ _ h => Or.inl h⟩
  step := fun s full_path title_id title_name _ => by
    obtain ⟨new, htr, hc⟩ := reconcile_step_fills env full_path title_id title_name s
    refine ⟨new, htr, ?_⟩
    intro k c' h
    rcases hc with hc | ⟨hc, hlog⟩
    · rw [hc] at h; exact Or.inl h
    · rw [hc] at h
      rcases cache_add_slot full_path title_id title_name s.cache k c' h with h' | h'
      · exact Or.inl h'
      · exact Or.inr ⟨full_path, title_id, title_name, hlog, h'⟩

/-- C9: the eviction loop of `scan_all_paths` leaves every slot that is not valid as it is and,
for every valid slot, calls `access` on the recorded path and keeps the slot unchanged when the
path exists, and only clears `valid` when it does not (so, when existence does not change during
the loop, the new cache is the old one with `valid` cleared exactly in the valid slots whose path
does not exist).  In a pass the events of the eviction loop come first, before any scan root is
looked at, and the scan roots are walked from the evicted cache: the pass is the walk of
`SCAN_PATHS` started in the state that holds the cache the eviction loop left.  From the evicted
cache on every valid slot is still there, unchanged, at the end of the pass, and every slot at
the end of the pass is the slot of the evicted cache or an entry written by a reconcile step of
this walk (its `[PROCESS]` line is among the events after the eviction loop); so a valid slot
whose path does not exist is, at the end of the pass, either the same slot with `valid` cleared
or such a new entry, never the stale entry kept.  No reconcile step, whatever `mount_and_install`
or the stability gate returned, and no call of `scan_directory_recursive` changes a valid
slot. -/
theorem cache_eviction (env : Env) :
    (∀ (cache : List GameCache) (tr : Trace),
      List.Forall₂ (fun c c' => (c.valid = false → c' = c) ∧
        (c.valid = true → ∃ ok, Event.access c.path ok ∈ (cache_cleaner env cache tr).2 ∧
          c' = { c with valid := ok })) cache (cache_cleaner env cache tr).1) ∧
    (∀ (ex : CStr → Bool) (cache : List GameCache) (tr : Trace),
      (∀ tr p, env.access tr p = ex p) →
      (cache_cleaner env cache tr).1 =
        cache.map (fun c => if c.valid && !ex c.path then { c with valid := false } else c)) ∧
    (∀ (fuel : Nat) (st : State), 7 ≤ fuel →
      ∃ st', scan_all_paths env fuel st = some st' ∧
        (st.trace ++ (cache_cleaner env st.cache st.trace).2) <+: st'.trace ∧
        ∀ (k : Nat) (c : GameCache),
          (cache_cleaner env st.cache st.trace).1[k]? = some c → c.valid = true →
          st'.cache[k]? = some c) ∧
    (∀ (st : State) (full_path title_id title_name : CStr) (k : Nat) (c : GameCache),
      st.cache[k]? = some c → c.valid = true →
      (reconcile_step env full_path title_id title_name st).cache[k]? = some c) ∧
    (∀ (fuel : Nat) (dir_path : CStr) (depth : Int) (st : State),
      1 ≤ fuel → MAX_RECURSION_DEPTH + 1 - depth < fuel →
      ∃ st', scan_directory_recursive env fuel dir_path depth st = some st' ∧
        ∀ (k : Nat) (c : GameCache),
          st.cache[k]? = some c → c.valid = true → st'.cache[k]? = some c) ∧
    (∀ (fuel : Nat) (st : State),
      scan_all_paths env fuel st =
        SCAN_PATHS.foldlM (scan_root env fuel)
          ⟨(cache_cleaner env st.cache st.trace).1, st.g_installed_count, st.g_mounted_count,
            st.trace ++ (cache_cleaner env st.cache st.trace).2⟩) ∧
    (∀ (fuel : Nat) (st st' : State), scan_all_paths env fuel st = some st' →
      ∃ walk, st'.trace = st.trace ++ (cache_cleaner env st.cache st.trace).2 ++ walk ∧
        ∀ (k : Nat) (c' : GameCache), st'.cache[k]? = some c' →
          (cache_cleaner env st.cache st.trace).1[k]? = some c' ∨
          ∃ full_path title_id title_name : CStr,
            Event.log_debug "[PROCESS] %s (%s) - installed=%d" [title_name, title_id] ∈ walk ∧
            c' = ⟨snprintf MAX_PATH full_path, snprintf MAX_TITLE_ID title_id,
              snprintf MAX_TITLE_NAME title_name, true⟩) ∧
    (∀ (ex : CStr → Bool) (fuel : Nat) (st st' : State) (k : Nat) (c : GameCache),
      (∀ tr p, env.access tr p = ex p) → scan_all_paths env fuel st = some st' →
      st.cache[k]? = some c → c.valid = true → ex c.path = false →
      ∃ walk, st'.trace = st.trace ++ (cache_cleaner env st.cache st.trace).2 ++ walk ∧
        (st'.cache[k]? = some { c with valid := false } ∨
          ∃ full_path title_id title_name : CStr,
            Event.log_debug "[PROCESS] %s (%s) - installed=%d" [title_name, title_id] ∈ walk ∧
            st'.cache[k]? = some ⟨snprintf MAX_PATH full_path, snprintf MAX_TITLE_ID title_id,
              snprintf MAX_TITLE_NAME title_name, true⟩)) := by
  have hwalk : ∀ (fuel : Nat) (st st' : State), scan_all_paths env fuel st = some st' →
      ∃ walk, st'.trace = st.trace ++ (cache_cleaner env st.cache st.trace).2 ++ walk ∧
        ∀ (k : Nat) (c' : GameCache), st'.cache[k]? = some c' →
          (cache_cleaner env st.cache st.trace).1[k]? = some c' ∨
          ∃ full_path title_id title_name : CStr,
            Event.log_debug "[PROCESS] %s (%s) - installed=%d" [title_name, title_id] ∈ walk ∧
            c' = ⟨snprintf MAX_PATH full_path, snprintf MAX_TITLE_ID title_id,
              snprintf MAX_TITLE_NAME title_name, true⟩ := by
    intro fuel st st' hst'
    unfold scan_all_paths at hst'
    exact foldlM_rel _ (fills_scanRel env).refl (fills_scanRel env).trans _ SCAN_PATHS
      (fun s x s' _ hx => scan_root_rel env _ (fills_scanRel env) fuel s s' x hx) _ _ hst'
  have hlen : ∀ (fuel : Nat) (st st' : State), scan_all_paths env fuel st = some st' →
      ∀ (k : Nat) (c : GameCache),
        (cache_cleaner env st.cache st.trace).1[k]? = some c → ∃ c', st'.cache[k]? = some c' := by
    intro fuel st st' hst'
    unfold scan_all_paths at hst'
    have hrel : ScanRel env (fun s s' => ∀ (k : Nat) (c : GameCache), s.cache[k]? = some c →
        ∃ c', s'.cache[k]? = some c') :=
      { refl := fun _ _ c h => ⟨c, h⟩
        trans := fun _ _ _ h1 h2 (k : Nat) (c : GameCache) h => by
          obtain ⟨c1, hc1⟩ := h1 k c h
          exact h2 k c1 hc1
        emit := fun _ _ _ c h => ⟨c, h⟩
        step := fun s full_path title_id title_name _ (k : Nat) (c : GameCache) h => by
          rcases reconcile_step_cache env full_path title_id title_name s with hc | ⟨-, hc⟩
          · rw [hc]; exact ⟨c, h⟩
          · rw [hc]
            have hk : k < s.cache.length := (List.getElem?_eq_some.mp h).1
            have hl : (cache_add full_path title_id title_name s.cache).length =
                s.cache.length := by
              generalize s.cache = l
              induction l with
              | nil => rfl
              | cons a as ih =>
                unfold cache_add
                split_ifs
                · rfl
                · simp only [List.length_cons, ih]
            exact ⟨_, List.getElem?_eq_getElem (hl.symm ▸ hk)⟩ }
    exact foldlM_rel _ hrel.refl hrel.trans _ SCAN_PATHS
      (fun s x s' _ hx => scan_root_rel env _ hrel fuel s s' x hx) _ _ hst'
  refine ⟨cache_cleaner_slots env, fun ex cache tr hex => cache_cleaner_static env ex hex cache tr,
    ?_, ?_, ?_, fun _ _ => rfl, hwalk, ?_⟩
  · intro fuel st hfuel
    obtain ⟨st', hst'⟩ := scan_all_paths_total env fuel hfuel st
    refine ⟨st', hst', ?_⟩
    unfold scan_all_paths at hst'
    exact foldlM_rel _ (keeps_valid_scanRel env).refl (keeps_valid_scanRel env).trans _ SCAN_PATHS
      (fun s x s' _ hx => scan_root_rel env _ (keeps_valid_scanRel env) fuel s s' x hx) _ _ hst'
  · intro st full_path title_id title_name k c h hv
    rcases reconcile_step_cache env full_path title_id title_name st with hc | ⟨-, hc⟩
    · rw [hc]; exact h
    · rw [hc]; exact cache_add_keeps_valid _ _ _ _ k c h hv
  · intro fuel dir_path depth st h1 h2
    obtain ⟨st', hst'⟩ := scan_directory_recursive_total env fuel dir_path depth st h1 h2
    exact ⟨st', hst',
      (scan_directory_recursive_rel env _ (keeps_valid_scanRel env) _ _ _ _ _ hst').2⟩
  · intro ex fuel st st' k c hex hst' hk hv hgone
    obtain ⟨walk, htr, hslots⟩ := hwalk fuel st st' hst'
    have hclean : (cache_cleaner env st.cache st.trace).1[k]? =
        some { c with valid := false } := by
      rw [cache_cleaner_static env ex hex st.cache st.trace, List.getElem?_map, hk]
      simp only [Option.map_some', hv, hgone, Bool.not_false, Bool.and_self, if_true]
    obtain ⟨c', hc'⟩ := hlen fuel st st' hst' k _ hclean
    refine ⟨walk, htr, ?_⟩
    rcases hslots k c' hc' with h | ⟨p, i, n, hlog, he⟩
    · left
      rw [hc', ← h, hclean]
    · right
      exact ⟨p, i, n, hlog, he ▸ hc'⟩

/-! ## The walk: which directories are enumerated -/

theorem fix_application_drm_type_no_walk (env : Env) (path : CStr) (tr : Trace) :
    ∀ e ∈ (fix_application_drm_type env path tr).2, e.is_walk = false := by
  unfold fix_application_drm_type
  split
  · simp [Event.is_walk]
  · dsimp only
    split_ifs
    · simp [Event.is_walk]
    · split <;> simp [Event.is_walk]

theorem get_game_info_no_walk (env : Env) (base_path out_name : CStr) (tr : Trace) :
    ∀ e ∈ (get_game_info env base_path out_name tr).2, e.is_walk = false := by
  have hfix := fix_application_drm_type_no_walk env (descriptor_path base_path) tr
  unfold get_game_info
  dsimp only
  generalize (fix_application_drm_type env (descriptor_path base_path) tr).2 = F at *
  split
  · exact List.forall_mem_append.mpr ⟨hfix, by simp [Event.is_walk]⟩
  · split_ifs
    · exact List.forall_mem_append.mpr
        ⟨List.forall_mem_append.mpr ⟨hfix, by simp [Event.is_walk]⟩, by simp [Event.is_walk]⟩
    · exact List.forall_mem_append.mpr
        ⟨List.forall_mem_append.mpr ⟨hfix, by simp [Event.is_walk]⟩, by simp [Event.is_walk]⟩
    · exact List.forall_mem_append.mpr ⟨hfix, by simp [Event.is_walk]⟩

theorem wait_for_stability_fast_no_walk (env : Env) (path name : CStr) (tr : Trace) :
    ∀ e ∈ (wait_for_stability_fast env path name tr).2, e.is_walk = false := by
  unfold wait_for_stability_fast
  simp only []
  split
  · simp [Event.is_walk]
  · split
    · split
      · split <;> simp [Event.is_walk]
      · simp [Event.is_walk]
    · simp [Event.is_walk]

theorem mount_and_install_no_walk (env : Env) (src_path title_id title_name : CStr)
    (is_remount : Bool) (tr : Trace) :
    ∀ e ∈ (mount_and_install env src_path title_id title_name is_remount tr).2,
      e.is_walk = false := by
  have hcopy : ∀ e ∈ mount_and_install_copy_files src_path title_id is_remount,
      e.is_walk = false := by
    unfold mount_and_install_copy_files
    split_ifs <;> simp [Event.is_walk]
  have htrack : ∀ t, ∀ e ∈ mount_and_install_write_tracker env src_path title_id t,
      e.is_walk = false := by
    intro t
    unfold mount_and_install_write_tracker
    dsimp only
    split_ifs <;> simp [Event.is_walk]
  have htoast : ∀ t m, ∀ e ∈ trigger_rich_toast env title_id title_name m t,
      e.is_walk = false := by
    intro t m
    unfold trigger_rich_toast
    dsimp only
    split_ifs <;> simp [Event.is_walk]
  have hreg : ∀ t, ∀ e ∈ (mount_and_install_register env title_id title_name t).2,
      e.is_walk = false := by
    intro t
    unfold mount_and_install_register
    dsimp only
    split_ifs
    · exact List.forall_mem_append.mpr
        ⟨List.forall_mem_append.mpr ⟨by simp [Event.is_walk], by simp [Event.is_walk]⟩,
          htoast _ _⟩
    · simp [Event.is_walk]
    · simp [Event.is_walk]
  unfold mount_and_install
  dsimp only
  split_ifs
  · simp [Event.is_walk]
  · exact List.forall_mem_append.mpr ⟨List.forall_mem_append.mpr
      ⟨List.forall_mem_append.mpr ⟨List.forall_mem_append.mpr
        ⟨by simp [Event.is_walk], by simp [Event.is_walk]⟩, hcopy⟩, htrack _⟩, hreg _⟩

theorem no_walk_refl (base : Trace) :
    ∃ ev, base = base ++ ev ∧ ∀ e ∈ ev, e.is_walk = false :=
  ⟨[], by simp, by simp⟩

theorem no_walk_append {base tr a : List Event}
    (h : ∃ ev, tr = base ++ ev ∧ ∀ e ∈ ev, e.is_walk = false)
    (ha : ∀ e ∈ a, e.is_walk = false) :
    ∃ ev, tr ++ a = base ++ ev ∧ ∀ e ∈ ev, e.is_walk = false := by
  obtain ⟨ev, h1, h2⟩ := h
  exact ⟨ev ++ a, by rw [h1, List.append_assoc], List.forall_mem_append.mpr ⟨h2, ha⟩⟩

/-- A reconcile step only appends events, none of which enumerates a directory. -/
theorem reconcile_step_no_walk (env : Env) (full_path title_id title_name : CStr) (st : State) :
    ∃ ev, (reconcile_step env full_path title_id title_name st).trace = st.trace ++ ev ∧
      ∀ e ∈ ev, e.is_walk = false := by
  have h1 : ∀ e ∈ (is_installed env title_id st.trace).2, e.is_walk = false := by
    simp [is_installed, Event.is_walk]
  have h2 : ∀ t, ∀ e ∈ (is_data_mounted env title_id t).2, e.is_walk = false := by
    simp [is_data_mounted, Event.is_walk]
  have hw := wait_for_stability_fast_no_walk env full_path title_name
  have hm := mount_and_install_no_walk env full_path title_id title_name
  have hlog : ∀ (f : String) (a : List CStr), ∀ e ∈ [Event.log_debug f a], e.is_walk = false := by
    simp [Event.is_walk]
  unfold reconcile_step
  dsimp only
  split_ifs <;> dsimp only <;>
    repeat' (first
      | exact no_walk_refl _
      | exact h1
      | exact h2 _
      | exact hw _
      | exact hm _ _
      | exact hlog _ _
      | refine no_walk_append ?_ ?_)
theorem enumerates_is_walk (q : CStr) (e : Event) (h : e.enumerates q = true) :
    e.is_walk = true := by
  cases e <;> simp_all [Event.enumerates, Event.is_walk]

theorem walk_bounded_refl (B : Nat) (s : State) : walk_bounded B s s :=
  ⟨[], by simp, by simp⟩

theorem walk_bounded_trans (B : Nat) (a b c : State) (h1 : walk_bounded B a b)
    (h2 : walk_bounded B b c) : walk_bounded B a c := by
  obtain ⟨n1, e1, b1⟩ := h1
  obtain ⟨n2, e2, b2⟩ := h2
  refine ⟨n1 ++ n2, by rw [e2, e1, List.append_assoc], ?_⟩
  intro e he q hq
  rcases List.mem_append.mp he with h | h
  · exact b1 e h q hq
  · exact b2 e h q hq

theorem walk_bounded_mono {B B' : Nat} (hB : B ≤ B') {s s' : State}
    (h : walk_bounded B s s') : walk_bounded B' s s' := by
  obtain ⟨n, e, b⟩ := h
  exact ⟨n, e, fun x hx q hq => le_trans (b x hx q hq) hB⟩

theorem walk_bounded_of_no_walk (B : Nat) {s s' : State}
    (h : ∃ ev, s'.trace = s.trace ++ ev ∧ ∀ e ∈ ev, e.is_walk = false) :
    walk_bounded B s s' := by
  obtain ⟨ev, e, b⟩ := h
  refine ⟨ev, e, fun x hx q hq => ?_⟩
  have := enumerates_is_walk q x hq
  rw [b x hx] at this
  exact absurd this (by simp)

theorem entry_path_count (dir n : CStr) (hn : SLASH ∉ n) :
    (entry_path dir n).count SLASH ≤ dir.count SLASH + 1 := by
  unfold entry_path snprintf
  refine le_trans (List.Sublist.count_le (List.take_sublist _ _) SLASH) ?_
  simp [List.count_append, List.count_eq_zero_of_not_mem hn]

theorem plain_path_count (names : List CStr) :
    ∀ root : CStr, root.count SLASH + names.length ≤ (plain_path root names).count SLASH := by
  induction names with
  | nil => intro root; simp [plain_path]
  | cons n ns ih =>
    intro root
    have := ih (root ++ [SLASH] ++ n)
    simp only [plain_path, List.foldl_cons, List.length_cons] at this ⊢
    simp only [List.count_append, List.count_singleton_self] at this
    omega

/-- The events of one loop iteration before the recursive call or the reconcile step: none
enumerates a directory. -/
theorem scan_entry_walk_bounded (env : Env) (B : Nat)
    (recurse : CStr → Int → State → Option State) (dir_path : CStr) (depth : Int)
    (d_name : CStr)
    (hrec : ∀ s s', recurse (entry_path dir_path d_name) (depth + 1) s = some s' →
      walk_bounded B s s')
    (st st' : State)
    (h : scan_entry env recurse dir_path depth st d_name = some st') :
    walk_bounded B st st' := by
  unfold scan_entry at h
  split_ifs at h with hdot
  · simp only [Option.some.injEq] at h
    exact h ▸ walk_bounded_refl B st
  · dsimp only at h
    have hs : ∀ r, ∀ e ∈ [Event.stat (entry_path dir_path d_name) r], e.is_walk = false := by
      simp [Event.is_walk]
    split at h
    · simp only [Option.some.injEq] at h
      subst h
      exact walk_bounded_of_no_walk B (no_walk_append (no_walk_refl _) (hs _))
    · split_ifs at h with hdir
      · simp only [Option.some.injEq] at h
        subst h
        exact walk_bounded_of_no_walk B (no_walk_append (no_walk_refl _) (hs _))
      · have hpre : walk_bounded B st
            { st with trace := st.trace ++ [Event.stat (entry_path dir_path d_name)
                (env.stat st.trace (entry_path dir_path d_name))] ++
              (get_game_info env (entry_path dir_path d_name) []
                (st.trace ++ [Event.stat (entry_path dir_path d_name)
                  (env.stat st.trace (entry_path dir_path d_name))])).2 } :=
          walk_bounded_of_no_walk B (no_walk_append (no_walk_append (no_walk_refl _) (hs _))
            (get_game_info_no_walk _ _ _ _))
        split at h
        · simp only [Option.some.injEq] at h
          subst h
          exact walk_bounded_trans B _ _ _ hpre
            (walk_bounded_of_no_walk B (reconcile_step_no_walk _ _ _ _ _))
        · exact walk_bounded_trans B _ _ _ hpre (hrec _ _ h)

/-- A call of `scan_directory_recursive` deeper than the bound changes nothing, and a call on
`dir_path` at depth `depth` only enumerates directories whose path has at most
`MAX_RECURSION_DEPTH - depth` more slashes than `dir_path`, when no entry name has a slash. -/
theorem scan_directory_recursive_walk_bounded (env : Env)
    (hslash : ∀ tr p l x, env.opendir tr p = some l → x ∈ l → SLASH ∉ x) :
    ∀ (fuel : Nat) (dir_path : CStr) (depth : Int) (st st' : State),
      scan_directory_recursive env fuel dir_path depth st = some st' →
      (depth > MAX_RECURSION_DEPTH → st' = st) ∧
      walk_bounded (dir_path.count SLASH + (MAX_RECURSION_DEPTH - depth).toNat) st st' := by
  intro fuel
  induction fuel with
  | zero => intro _ _ _ _ h; simp [scan_directory_recursive] at h
  | succ fuel ih =>
    intro dir_path depth st st' h
    unfold scan_directory_recursive at h
    split_ifs at h with hd
    · simp only [Option.some.injEq] at h
      exact ⟨fun _ => h.symm, h ▸ walk_bounded_refl _ st⟩
    · refine ⟨fun hgt => absurd hgt hd, ?_⟩
      split at h
      · simp only [Option.some.injEq] at h
        subst h
        refine ⟨[Event.opendir dir_path false], rfl, ?_⟩
        intro e he q hq
        simp only [List.mem_singleton] at he
        subst he
        simp only [Event.enumerates, decide_eq_true_eq] at hq
        subst hq
        omega
      · rename_i entries hopen
        simp only [Option.map_eq_some'] at h
        obtain ⟨s1, hs1, hs2⟩ := h
        subst hs2
        have hfold := foldlM_rel
          (walk_bounded (dir_path.count SLASH + (MAX_RECURSION_DEPTH - depth).toNat))
          (walk_bounded_refl _) (walk_bounded_trans _) _ entries
          (fun s x s' hx hsx => scan_entry_walk_bounded env _ _ dir_path depth x
            (fun a b hab => by
              obtain ⟨hprune, hb⟩ := ih _ _ _ _ hab
              by_cases hdeep : depth + 1 > MAX_RECURSION_DEPTH
              · rw [hprune hdeep]
                exact walk_bounded_refl _ _
              · refine walk_bounded_mono ?_ hb
                have := entry_path_count dir_path x (hslash _ _ _ _ hopen hx)
                simp only [MAX_RECURSION_DEPTH] at hdeep hd ⊢
                omega)
            s s' hsx) _ _ hs1
        refine walk_bounded_trans _ _ _ _ ?_ (walk_bounded_trans _ _ _ _ hfold ?_)
        · refine ⟨[Event.opendir dir_path true,
            Event.log_debug "[RECURSIVE] Scanning: %s (depth=%d)" [dir_path]], rfl, ?_⟩
          intro e he q hq
          simp only [List.mem_cons, List.mem_singleton, List.not_mem_nil, or_false] at he
          rcases he with he | he
          · subst he
            simp only [Event.enumerates, decide_eq_true_eq] at hq
            subst hq
            omega
          · subst he
            simp [Event.enumerates] at hq
        · refine ⟨[Event.closedir dir_path], rfl, ?_⟩
          intro e he q hq
          simp only [List.mem_singleton] at he
          subst he
          simp only [Event.enumerates, decide_eq_true_eq] at hq
          subst hq
          omega

theorem foldlM_reach {α β : Type} (I Q : β → Prop) (f : β → α → Option β) (x : α)
    (hI : ∀ s y s', f s y = some s' → I s → I s')
    (hmono : ∀ s y s', f s y = some s' → Q s → Q s')
    (hhit : ∀ s s', I s → f s x = some s' → Q s') :
    ∀ (l : List α), x ∈ l → ∀ s s', I s → l.foldlM f s = some s' → Q s' := by
  intro l
  induction l with
  | nil => intro hx; simp at hx
  | cons y ys ih =>
    intro hx s s' hs h
    simp only [List.foldlM_cons, bind, Option.bind_eq_some] at h
    obtain ⟨s1, h1, h2⟩ := h
    rcases List.mem_cons.mp hx with hxy | hxys
    · subst hxy
      have hq1 := hhit s s1 hs h1
      exact foldlM_rel (fun a b => Q a → Q b) (fun _ h => h) (fun _ _ _ h1 h2 h => h2 (h1 h)) f ys
        (fun a y b _ hab => hmono a y b hab) s1 s' h2 hq1
    · exact ih hxys s1 s' (hI s y s1 h1 hs) h2

theorem scan_entry_trace_grows (env : Env) (fuel : Nat) (dir_path : CStr) (depth : Int)
    (st st' : State) (d_name : CStr)
    (h : scan_entry env (scan_directory_recursive env fuel) dir_path depth st d_name = some st') :
    st.trace <+: st'.trace :=
  (scan_entry_rel env _ (keeps_valid_scanRel env) _
    (fun p d s s' => scan_directory_recursive_rel env _ (keeps_valid_scanRel env) fuel p d s s')
    dir_path depth st st' d_name h).1

/-- Something that every walk of the last directory of a chain of containers makes true of the
trace, and that stays true when the trace grows, is true after the walk of the first one. -/
theorem chain_reaches (env : Env) (base : Trace) (Q : Trace → Prop)
    (hQ : ∀ tr ev, Q tr → Q (tr ++ ev)) :
    ∀ (names : List CStr) (dir : CStr) (depth target : Int) (fuel : Nat) (st st' : State),
      target = depth + names.length → target ≤ MAX_RECURSION_DEPTH →
      container_chain env dir names →
      (∀ fuel' s s', base <+: s.trace →
        scan_directory_recursive env fuel' (nested_path dir names) target s = some s' →
        Q s'.trace) →
      base <+: st.trace →
      scan_directory_recursive env fuel dir depth st = some st' → Q st'.trace := by
  intro names
  induction names with
  | nil =>
    intro dir depth target fuel st st' ht _ _ hleaf hbase h
    simp only [List.length_nil, Nat.cast_zero, add_zero] at ht
    subst ht
    exact hleaf fuel st st' hbase h
  | cons n ns ih =>
    intro dir depth target fuel st st' ht hle hchain hleaf hbase h
    obtain ⟨hopen, hdot, hstat, hinfo, hrest⟩ := hchain
    simp only [List.length_cons, Nat.cast_add, Nat.cast_one] at ht
    cases fuel with
    | zero => simp [scan_directory_recursive] at h
    | succ fuel =>
      unfold scan_directory_recursive at h
      have hd : ¬ depth > MAX_RECURSION_DEPTH := by omega
      rw [if_neg hd] at h
      obtain ⟨l, hl, hn⟩ := hopen st.trace
      simp only [hl, Option.map_eq_some'] at h
      obtain ⟨s1, hs1, hs2⟩ := h
      subst hs2
      refine hQ _ _ ?_
      refine foldlM_reach (fun s => base <+: s.trace) (fun s => Q s.trace) _ n ?_ ?_ ?_ l hn _ s1
        (hbase.trans (List.prefix_append _ _)) hs1
      · intro s y s' hsy hs
        exact hs.trans (scan_entry_trace_grows env fuel dir depth s s' y hsy)
      · intro s y s' hsy hq
        obtain ⟨ev, hev⟩ := scan_entry_trace_grows env fuel dir depth s s' y hsy
        rw [← hev]
        exact hQ _ _ hq
      · intro s s' hs hsn
        unfold scan_entry at hsn
        rw [if_neg hdot] at hsn
        obtain ⟨sd, hsd, hdir⟩ := hstat s.trace
        have hi := hinfo (s.trace ++ [Event.stat (entry_path dir n) (some sd)])
        simp only [hsd, hdir, Bool.not_true, Bool.false_eq_true, if_false, hi] at hsn
        refine ih (entry_path dir n) (depth + 1) target fuel _ s' (by omega) hle hrest ?_ ?_ hsn
        · intro fuel' a b hab hscan
          exact hleaf fuel' a b hab hscan
        · exact hs.trans ((List.prefix_append _ _).trans (List.prefix_append _ _))

theorem container_chain_append (env : Env) (n : CStr) :
    ∀ (names : List CStr) (dir : CStr), container_chain env dir (names ++ [n]) →
      container_chain env dir names ∧ container_chain env (nested_path dir names) [n] := by
  intro names
  induction names with
  | nil => intro dir h; exact ⟨trivial, h⟩
  | cons m ms ih =>
    intro dir h
    obtain ⟨h1, h2, h3, h4, h5⟩ := h
    obtain ⟨h6, h7⟩ := ih (entry_path dir m) h5
    exact ⟨⟨h1, h2, h3, h4, h6⟩, h7⟩

theorem foldlM_scan_entry_trace_grows (env : Env) (fuel : Nat) (dir_path : CStr) (depth : Int)
    (l : List CStr) (s s' : State)
    (h : l.foldlM (scan_entry env (scan_directory_recursive env fuel) dir_path depth) s = some s') :
    s.trace <+: s'.trace :=
  foldlM_rel (fun a b : State => a.trace <+: b.trace) (fun _ => List.prefix_refl _)
    (fun _ _ _ h1 h2 => h1.trans h2) _ l
    (fun a y b _ hab => scan_entry_trace_grows env fuel dir_path depth a b y hab) s s' h

/-- The walk of a directory that can be opened, at a depth within the bound, opens and closes
it. -/
theorem scan_directory_recursive_enumerates (env : Env) (base : Trace) (p : CStr) (d : Int)
    (hd : d ≤ MAX_RECURSION_DEPTH) (hopen : ∀ tr, (env.opendir tr p).isSome)
    (fuel : Nat) (s s' : State) (hbase : base <+: s.trace)
    (h : scan_directory_recursive env fuel p d s = some s') :
    ∃ ev, s'.trace = base ++ ev ∧ Event.opendir p true ∈ ev ∧ Event.closedir p ∈ ev := by
  cases fuel with
  | zero => simp [scan_directory_recursive] at h
  | succ fuel =>
    unfold scan_directory_recursive at h
    rw [if_neg (not_lt.mpr hd)] at h
    obtain ⟨l, hl⟩ := Option.isSome_iff_exists.mp (hopen s.trace)
    simp only [hl, Option.map_eq_some'] at h
    obtain ⟨s1, hs1, hs2⟩ := h
    subst hs2
    obtain ⟨ev1, hev1⟩ := foldlM_scan_entry_trace_grows env fuel p d l _ s1 hs1
    obtain ⟨b, hb⟩ := hbase
    refine ⟨b ++ [Event.opendir p true,
      Event.log_debug "[RECURSIVE] Scanning: %s (depth=%d)" [p]] ++ ev1 ++ [Event.closedir p],
      ?_, by simp, by simp⟩
    simp only [← hev1, ← hb, List.append_assoc]

theorem get_game_info_probe (env : Env) (base_path out_name : CStr) (tr : Trace) :
    ∃ ok, Event.fopen (descriptor_path base_path) "rb+" ok ∈
      (get_game_info env base_path out_name tr).2 := by
  have hfix : ∃ ok, Event.fopen (descriptor_path base_path) "rb+" ok ∈
      (fix_application_drm_type env (descriptor_path base_path) tr).2 := by
    unfold fix_application_drm_type
    split
    · exact ⟨false, by simp⟩
    · dsimp only
      split_ifs
      · exact ⟨true, by simp⟩
      · split <;> exact ⟨true, by simp⟩
  obtain ⟨ok, hok⟩ := hfix
  refine ⟨ok, ?_⟩
  unfold get_game_info
  dsimp only
  split
  · exact List.mem_append_left _ hok
  · split_ifs
    · exact List.mem_append_left _ (List.mem_append_left _ hok)
    · exact List.mem_append_left _ (List.mem_append_left _ hok)
    · exact List.mem_append_left _ hok

/-- The walk of a directory at a depth within the bound classifies each of its sub-directories:
the descriptor of a listed, not hidden sub-directory is opened, container or not. -/
theorem scan_directory_recursive_probes (env : Env) (base : Trace) (p n : CStr) (d : Int)
    (hd : d ≤ MAX_RECURSION_DEPTH) (hlink : container_chain env p [n])
    (fuel : Nat) (s s' : State) (hbase : base <+: s.trace)
    (h : scan_directory_recursive env fuel p d s = some s') :
    ∃ ev ok, s'.trace = base ++ ev ∧
      Event.fopen (descriptor_path (entry_path p n)) "rb+" ok ∈ ev := by
  obtain ⟨hopen, hdot, hstat, hinfo, -⟩ := hlink
  cases fuel with
  | zero => simp [scan_directory_recursive] at h
  | succ fuel =>
    unfold scan_directory_recursive at h
    rw [if_neg (not_lt.mpr hd)] at h
    obtain ⟨l, hl, hn⟩ := hopen s.trace
    simp only [hl, Option.map_eq_some'] at h
    obtain ⟨s1, hs1, hs2⟩ := h
    subst hs2
    have key : ∃ ev ok, s1.trace = base ++ ev ∧
        Event.fopen (descriptor_path (entry_path p n)) "rb+" ok ∈ ev := by
      refine foldlM_reach (fun a : State => base <+: a.trace)
        (fun a : State => ∃ ev ok, a.trace = base ++ ev ∧
          Event.fopen (descriptor_path (entry_path p n)) "rb+" ok ∈ ev) _ n ?_ ?_ ?_ l hn _ s1
        (hbase.trans (List.prefix_append _ _)) hs1
      · intro a y b hab ha
        exact ha.trans (scan_entry_trace_grows env fuel p d a b y hab)
      · rintro a y b hab ⟨ev, ok, hev, hmem⟩
        obtain ⟨ev2, hev2⟩ := scan_entry_trace_grows env fuel p d a b y hab
        exact ⟨ev ++ ev2, ok, by rw [← hev2, hev, List.append_assoc],
          List.mem_append_left _ hmem⟩
      · intro a b ha hab
        unfold scan_entry at hab
        rw [if_neg hdot] at hab
        obtain ⟨sd, hsd, hdir⟩ := hstat a.trace
        have hi := hinfo (a.trace ++ [Event.stat (entry_path p n) (some sd)])
        obtain ⟨ok, hok⟩ := get_game_info_probe env (entry_path p n) []
          (a.trace ++ [Event.stat (entry_path p n) (some sd)])
        simp only [hsd, hdir, Bool.not_true, Bool.false_eq_true, if_false, hi] at hab
        obtain ⟨ev2, hev2⟩ := scan_directory_recursive_rel env _ (keeps_valid_scanRel env)
          fuel _ _ _ _ hab |>.1
        obtain ⟨a0, ha0⟩ := ha
        refine ⟨a0 ++ [Event.stat (entry_path p n) (some sd)] ++
          (get_game_info env (entry_path p n) []
            (a.trace ++ [Event.stat (entry_path p n) (some sd)])).2 ++ ev2, ok, ?_, ?_⟩
        · rw [← hev2]
          simp only [← ha0, List.append_assoc]
        · exact List.mem_append_left _ (List.mem_append_right _ hok)
    obtain ⟨ev, ok, hev, hmem⟩ := key
    exact ⟨ev ++ [Event.closedir p], ok, by simp only [hev, List.append_assoc],
      List.mem_append_left _ hmem⟩

/-- C7, as the code has it: the walk of a scan root (depth 0) returns; a container reached
through five containers (`names`), each listed in the previous one, is enumerated (`opendir`
succeeds on it and it is closed again); no directory nested six levels below the root,
`root/n1/../n5/n`, is ever opened or closed, entry names having no slash; a call of
`scan_directory_recursive` at depth 6 returns at once with no event (no log, no error).  But a
container at level six that is listed in its parent is classified by the parent's loop:
`get_game_info` opens its descriptor `<dir>/sce_sys/param.json`. -/
theorem recursion_bound (env : Env) (root : CStr) (names : List CStr) (n : CStr)
    (fuel : Nat) (st : State) (hfuel : 7 ≤ fuel) (hlen : names.length = 5)
    (hchain : container_chain env root names)
    (hopen : ∀ tr, (env.opendir tr (nested_path root names)).isSome) :
    ∃ st' new, scan_directory_recursive env fuel root 0 st = some st' ∧
      st'.trace = st.trace ++ new ∧
      Event.opendir (nested_path root names) true ∈ new ∧
      Event.closedir (nested_path root names) ∈ new ∧
      ((∀ tr p l x, env.opendir tr p = some l → x ∈ l → SLASH ∉ x) →
        ∀ e ∈ new, e.enumerates (plain_path root (names ++ [n])) = false) ∧
      (container_chain env root (names ++ [n]) →
        ∃ ok, Event.fopen (descriptor_path (nested_path root (names ++ [n]))) "rb+" ok ∈ new) ∧
      (∀ dir s, scan_directory_recursive env fuel dir (MAX_RECURSION_DEPTH + 1) s = some s) := by
  obtain ⟨st', hst'⟩ := scan_directory_recursive_total env fuel root 0 st (by omega)
    (by simp only [MAX_RECURSION_DEPTH]; omega)
  obtain ⟨new, hnew⟩ := (scan_directory_recursive_rel env _ (keeps_valid_scanRel env)
    fuel root 0 st st' hst').1
  have htarget : ((5 : Int)) = 0 + (names.length : Int) := by rw [hlen]; rfl
  refine ⟨st', new, hst', hnew.symm, ?_, ?_, ?_, ?_, ?_⟩
  · obtain ⟨ev, hev, ho, -⟩ := chain_reaches env st.trace
      (fun tr => ∃ ev, tr = st.trace ++ ev ∧ Event.opendir (nested_path root names) true ∈ ev ∧
        Event.closedir (nested_path root names) ∈ ev)
      (fun tr ev' ⟨ev, h1, h2, h3⟩ => ⟨ev ++ ev', by rw [h1, List.append_assoc],
        List.mem_append_left _ h2, List.mem_append_left _ h3⟩)
      names root 0 5 fuel st st' htarget (by simp [MAX_RECURSION_DEPTH]) hchain
      (fun fuel' s s' hb h => scan_directory_recursive_enumerates env st.trace _ 5
        (by simp [MAX_RECURSION_DEPTH]) hopen fuel' s s' hb h)
      (List.prefix_refl _) hst'
    rw [← hnew] at hev
    rw [List.append_cancel_left hev]
    exact ho
  · obtain ⟨ev, hev, -, hc⟩ := chain_reaches env st.trace
      (fun tr => ∃ ev, tr = st.trace ++ ev ∧ Event.opendir (nested_path root names) true ∈ ev ∧
        Event.closedir (nested_path root names) ∈ ev)
      (fun tr ev' ⟨ev, h1, h2, h3⟩ => ⟨ev ++ ev', by rw [h1, List.append_assoc],
        List.mem_append_left _ h2, List.mem_append_left _ h3⟩)
      names root 0 5 fuel st st' htarget (by simp [MAX_RECURSION_DEPTH]) hchain
      (fun fuel' s s' hb h => scan_directory_recursive_enumerates env st.trace _ 5
        (by simp [MAX_RECURSION_DEPTH]) hopen fuel' s s' hb h)
      (List.prefix_refl _) hst'
    rw [← hnew] at hev
    rw [List.append_cancel_left hev]
    exact hc
  · intro hslash e he
    obtain ⟨-, new', hnew', hb⟩ := scan_directory_recursive_walk_bounded env hslash fuel root 0
      st st' hst'
    rw [← hnew] at hnew'
    have hnn := List.append_cancel_left hnew'
    subst hnn
    cases hq : e.enumerates (plain_path root (names ++ [n])) with
    | false => rfl
    | true =>
      have h1 := hb e he _ hq
      have h2 := plain_path_count (names ++ [n]) root
      simp only [List.length_append, hlen, List.length_singleton, MAX_RECURSION_DEPTH] at h1 h2
      omega
  · intro hchain6
    obtain ⟨-, hlink⟩ := container_chain_append env n names root hchain6
    obtain ⟨ev, ok, hev, hmem⟩ := chain_reaches env st.trace
      (fun tr => ∃ ev ok, tr = st.trace ++ ev ∧
        Event.fopen (descriptor_path (nested_path root (names ++ [n]))) "rb+" ok ∈ ev)
      (fun tr ev' ⟨ev, ok, h1, h2⟩ => ⟨ev ++ ev', ok, by rw [h1, List.append_assoc],
        List.mem_append_left _ h2⟩)
      names root 0 5 fuel st st' htarget (by simp [MAX_RECURSION_DEPTH]) hchain
      (fun fuel' s s' hb h => by
        have := scan_directory_recursive_probes env st.trace (nested_path root names) n 5
          (by simp [MAX_RECURSION_DEPTH]) hlink fuel' s s' hb h
        simpa [nested_path, List.foldl_append] using this)
      (List.prefix_refl _) hst'
    rw [← hnew] at hev
    rw [List.append_cancel_left hev]
    exact ⟨ok, hmem⟩
  · intro dir s
    cases fuel with
    | zero => omega
    | succ fuel =>
      unfold scan_directory_recursive
      rw [if_pos (by simp [MAX_RECURSION_DEPTH])]

theorem env_deep_chain : container_chain env_deep "/r".toList names_a_to_f := by
  refine ⟨fun tr => ⟨_, rfl, by decide⟩, by decide, fun tr => ⟨_, rfl, rfl⟩, fun tr => rfl, ?_⟩
  refine ⟨fun tr => ⟨_, rfl, by decide⟩, by decide, fun tr => ⟨_, rfl, rfl⟩, fun tr => rfl, ?_⟩
  refine ⟨fun tr => ⟨_, rfl, by decide⟩, by decide, fun tr => ⟨_, rfl, rfl⟩, fun tr => rfl, ?_⟩
  refine ⟨fun tr => ⟨_, rfl, by decide⟩, by decide, fun tr => ⟨_, rfl, rfl⟩, fun tr => rfl, ?_⟩
  refine ⟨fun tr => ⟨_, rfl, by decide⟩, by decide, fun tr => ⟨_, rfl, rfl⟩, fun tr => rfl, ?_⟩
  exact ⟨fun tr => ⟨_, rfl, by decide⟩, by decide, fun tr => ⟨_, rfl, rfl⟩, fun tr => rfl,
    trivial⟩

theorem recursion_bound_witness :
    ∃ st', scan_directory_recursive env_deep 7 "/r".toList 0 initState = some st' ∧
      Event.opendir "/r/a/b/c/d/e".toList true ∈ st'.trace ∧
      ∃ ok, Event.fopen "/r/a/b/c/d/e/f/sce_sys/param.json".toList "rb+" ok ∈ st'.trace := by
  obtain ⟨st', new, h1, h2, h3, -, -, h6, -⟩ :=
    recursion_bound env_deep "/r".toList names_a_to_e "f".toList 7 initState (by decide) rfl
      (container_chain_append env_deep "f".toList names_a_to_e "/r".toList env_deep_chain).1
      (fun _ => rfl)
  obtain ⟨ok, hok⟩ := h6 env_deep_chain
  exact ⟨st', h1, h2 ▸ List.mem_append_right _ h3, ok, h2 ▸ List.mem_append_right _ hok⟩

/-- C7 fails as stated: `/r/a/b/c/d/e/f` is a container nested six levels below the scan root
`/r` (a directory with no title id in its descriptor), and the walk of `/r` opens and reads the
file `/r/a/b/c/d/e/f/sce_sys/param.json` below it. -/
theorem level_six_descriptor_is_read :
    ∃ st', scan_directory_recursive env_deep 7 "/r".toList 0 initState = some st' ∧
      container_chain env_deep "/r".toList names_a_to_f ∧
      plain_path "/r".toList names_a_to_f = "/r/a/b/c/d/e/f".toList ∧
      Event.fopen "/r/a/b/c/d/e/f/sce_sys/param.json".toList "rb" true ∈ st'.trace ∧
      Event.malloc 3 true ∈ st'.trace :=
  ⟨_, rfl, env_deep_chain, by decide, by decide, by decide⟩

/-! ## The cache: insertion on first sight -/

theorem entry_path_length (dir_path d_name : CStr) :
    (entry_path dir_path d_name).length ≤ MAX_PATH - 1 := by
  unfold entry_path snprintf
  exact List.length_take_le _ _

theorem get_game_info_name_length (env : Env) (base_path : CStr) (tr : Trace)
    (id name : CStr) (h : (get_game_info env base_path [] tr).1 = some (id, name)) :
    name.length ≤ MAX_TITLE_NAME - 1 := by
  obtain ⟨bytes, -, -, -, hbuf⟩ := get_game_info_some env base_path [] tr (id, name) h
  unfold get_game_info_buffer at hbuf
  dsimp only at hbuf
  generalize (match strstr (cstr bytes) (QUOTE :: "en-US".toList ++ [QUOTE]) with
      | some en_ptr => en_ptr
      | none => cstr bytes) = ss at hbuf
  generalize h1 : extract_json_string (cstr bytes) "titleId".toList MAX_TITLE_ID = r1 at hbuf
  generalize h2 : extract_json_string (cstr bytes) "title_id".toList MAX_TITLE_ID = r2 at hbuf
  generalize h3 : extract_json_string ss "titleName".toList MAX_TITLE_NAME = r3 at hbuf
  generalize h4 : extract_json_string (cstr bytes) "titleName".toList MAX_TITLE_NAME = r4 at hbuf
  have key : ∃ o, (r3 = .ok o ∨ r4 = .ok o ∨ o = []) ∧
      name = (if o.length = 0 then snprintf MAX_TITLE_NAME id else o) := by
    rcases r1 with e1 | o1 <;> rcases r2 with e2 | o2 <;> rcases r3 with e3 | o3 <;>
      rcases r4 with e4 | o4 <;> simp only [] at hbuf <;>
      first
        | (simp only [Option.some.injEq, Prod.mk.injEq] at hbuf
           obtain ⟨ha, hb⟩ := hbuf
           subst ha
           exact ⟨_, by simp, hb.symm⟩)
        | cases hbuf
  obtain ⟨o, ho, hn⟩ := key
  rw [hn]
  split_ifs
  · unfold snprintf
    exact List.length_take_le _ _
  · rcases ho with ho | ho | ho
    · obtain ⟨v, -, e⟩ := extract_json_string_ok _ _ _ _ (h3.trans ho)
      exact e ▸ extract_loop_length _ _ _
    · obtain ⟨v, -, e⟩ := extract_json_string_ok _ _ _ _ (h4.trans ho)
      exact e ▸ extract_loop_length _ _ _
    · simp [ho]

/-- C11, as the code has it: for a bundle the walk found (`full_path` built by the loop, title
id and name read by `get_game_info`) that is not mounted and has no valid cache entry, whenever
the cache still has a slot that is not valid, the cache after the reconcile step is the cache
before with the first such slot filled, and it holds the valid entry
`(full_path, title_id, title_name)`.  Nothing is assumed about `is_installed`, the stability
gate, the bind or the registration: the entry is there whatever the action did. -/
theorem reconcile_step_inserts (env : Env) (dir_path d_name title_id title_name : CStr)
    (tr0 : Trace) (st : State)
    (hdesc : (get_game_info env (entry_path dir_path d_name) [] tr0).1
      = some (title_id, title_name))
    (hm : (is_data_mounted env title_id
      (st.trace ++ (is_installed env title_id st.trace).2)).1 = false)
    (hc : ¬ ∃ c ∈ st.cache, c.valid = true ∧ c.title_id = title_id)
    (hfree : ∃ c ∈ st.cache, c.valid = false) :
    (reconcile_step env (entry_path dir_path d_name) title_id title_name st).cache =
      cache_add (entry_path dir_path d_name) title_id title_name st.cache ∧
    (⟨entry_path dir_path d_name, title_id, title_name, true⟩ : GameCache) ∈
      (reconcile_step env (entry_path dir_path d_name) title_id title_name st).cache := by
  have hp : ¬ already_processed st.cache title_id = true := by
    rw [already_processed_iff]; exact hc
  have hcache : (reconcile_step env (entry_path dir_path d_name) title_id title_name st).cache =
      cache_add (entry_path dir_path d_name) title_id title_name st.cache := by
    rcases reconcile_step_cache env (entry_path dir_path d_name) title_id title_name st with
      h | ⟨-, h⟩
    · simp only [reconcile_step, hm, hp, Bool.false_eq_true, if_false] at h ⊢
      split_ifs <;> rfl
    · exact h
  refine ⟨hcache, ?_⟩
  rw [hcache]
  have h1 : snprintf MAX_PATH (entry_path dir_path d_name) = entry_path dir_path d_name := by
    unfold snprintf
    exact List.take_of_length_le (entry_path_length _ _)
  have h2 : snprintf MAX_TITLE_ID title_id = title_id := by
    unfold snprintf
    exact List.take_of_length_le (get_game_info_id_length env _ _ _ _ _ hdesc)
  have h3 : snprintf MAX_TITLE_NAME title_name = title_name := by
    unfold snprintf
    exact List.take_of_length_le (get_game_info_name_length env _ _ _ _ hdesc)
  have := cache_add_mem (entry_path dir_path d_name) title_id title_name st.cache hfree
  rw [h1, h2, h3] at this
  exact this

theorem reconcile_step_inserts_witness :
    (⟨entry_path "/roots".toList "pkgA".toList, "ABCD00001".toList, "ABCD00001".toList, true⟩ :
      GameCache) ∈
      (reconcile_step (env_descriptor descriptor_id_only)
        (entry_path "/roots".toList "pkgA".toList) "ABCD00001".toList "ABCD00001".toList
        initState).cache :=
  (reconcile_step_inserts (env_descriptor descriptor_id_only) "/roots".toList "pkgA".toList
    "ABCD00001".toList "ABCD00001".toList [] initState (by decide) rfl
    (initCache_not_processed _)
    ⟨⟨[], [], [], false⟩, List.mem_replicate.mpr ⟨by decide, rfl⟩, rfl⟩).2

set_option maxRecDepth 100000 in
/-- C11 fails as stated: with no free slot in the cache, the reconcile step of the fresh, stable
bundle `ABCD00001` installs it (`g_installed_count` becomes 1) and leaves the cache as it was,
without any entry for `ABCD00001`. -/
theorem full_cache_no_insertion :
    (reconcile_step env_fresh "/roots/pkgA".toList "ABCD00001".toList "Game A".toList
      ⟨full_cache, 0, 0, []⟩).cache = full_cache ∧
    (reconcile_step env_fresh "/roots/pkgA".toList "ABCD00001".toList "Game A".toList
      ⟨full_cache, 0, 0, []⟩).g_installed_count = 1 ∧
    (is_data_mounted env_fresh "ABCD00001".toList
      (is_installed env_fresh "ABCD00001".toList []).2).1 = false ∧
    full_cache.length = MAX_PENDING ∧
    ¬ ∃ c ∈ full_cache, c.title_id = "ABCD00001".toList := by
  refine ⟨by rfl, by rfl, by rfl, by rfl, ?_⟩
  decide

/-! ## Induction over a scan, knowing the events of the walk -/

theorem strstr_self (needle : CStr) : ∀ y : CStr, strstr (needle ++ y) needle = some (needle ++ y) := by
  intro y
  cases h : needle ++ y with
  | nil =>
    have : needle = [] := (List.append_eq_nil.mp h).1
    simp [strstr, this]
  | cons c cs =>
    have hp : needle.isPrefixOf (c :: cs) = true := by
      rw [List.isPrefixOf_iff_prefix, ← h]
      exact List.prefix_append _ _
    simp only [strstr, hp, if_true]

/-- The result of `strstr` starts with the needle, at its first occurrence: whatever follows the
needle there, `strstr` finds the same place. -/
theorem strstr_spec (needle : CStr) :
    ∀ hay p : CStr, strstr hay needle = some p →
      ∃ A x, hay = A ++ needle ++ x ∧ p = needle ++ x ∧
        ∀ y, strstr (A ++ needle ++ y) needle = some (needle ++ y) := by
  intro hay
  induction hay with
  | nil =>
    intro p h
    unfold strstr at h
    split_ifs at h with hn
    simp only [Option.some.injEq] at h
    subst h
    subst hn
    exact ⟨[], [], rfl, rfl, fun y => strstr_self [] y⟩
  | cons c cs ih =>
    intro p h
    unfold strstr at h
    split_ifs at h with hp
    · simp only [Option.some.injEq] at h
      subst h
      rw [List.isPrefixOf_iff_prefix] at hp
      obtain ⟨x, hx⟩ := hp
      exact ⟨[], x, hx.symm, hx.symm, fun y => strstr_self needle y⟩
    · obtain ⟨A, x, hcs, hpx, hy⟩ := ih p h
      refine ⟨c :: A, x, by rw [hcs]; rfl, hpx, ?_⟩
      intro y
      have hnot : ¬ needle.isPrefixOf (c :: (A ++ needle ++ y)) = true := by
        intro hpre
        apply hp
        rw [List.isPrefixOf_iff_prefix] at hpre ⊢
        rw [hcs]
        have hpre' : needle <+: (c :: A ++ needle) ++ y := hpre
        have h1 : needle <+: c :: A ++ needle :=
          List.prefix_of_prefix_length_le hpre' (List.prefix_append _ _)
            (by simp only [List.length_append, List.length_cons]; omega)
        exact h1.trans (List.prefix_append _ _)
      show strstr (c :: (A ++ needle ++ y)) needle = _
      unfold strstr
      rw [if_neg hnot]
      exact hy y

theorem strchr_spec (c : Char) :
    ∀ l q : CStr, strchr l c = some q → ∃ B r, l = B ++ c :: r ∧ q = c :: r ∧ c ∉ B := by
  intro l
  induction l with
  | nil => intro q h; simp [strchr] at h
  | cons a as ih =>
    intro q h
    unfold strchr at h
    split_ifs at h with ha
    · simp only [Option.some.injEq] at h
      subst h
      subst ha
      exact ⟨[], as, rfl, rfl, List.not_mem_nil _⟩
    · obtain ⟨B, r, hl, hq, hB⟩ := ih q h
      refine ⟨a :: B, r, by rw [hl]; rfl, hq, ?_⟩
      intro hmem
      rcases List.mem_cons.mp hmem with h' | h'
      · exact ha h'.symm
      · exact hB h'

theorem strchr_append (c : Char) :
    ∀ (B r : CStr), c ∉ B → strchr (B ++ c :: r) c = some (c :: r) := by
  intro B
  induction B with
  | nil => intro r _; simp [strchr]
  | cons a as ih =>
    intro r h
    have ha : ¬ a = c := fun e => h (e ▸ List.mem_cons_self _ _)
    show strchr (a :: (as ++ c :: r)) c = _
    unfold strchr
    rw [if_neg ha]
    exact ih r (fun hm => h (List.mem_cons_of_mem _ hm))

theorem take_through (X Y : List Char) (a : Char) :
    (X ++ a :: Y).take ((X ++ a :: Y).length - (a :: Y).length + 1) = X ++ [a] := by
  have hlen : (X ++ a :: Y).length - (a :: Y).length + 1 = (X ++ [a]).length := by
    simp only [List.length_append, List.length_cons, List.length_nil]
    omega
  rw [hlen]
  have : X ++ a :: Y = (X ++ [a]) ++ Y := by simp
  rw [this]
  exact List.take_left _ _

/-- What one run does to a buffer in which the first key is followed by a colon and a quoted
string `V`: nothing when `V` is `standard`, else the rewrite of `V` to `standard`. -/
theorem fix_drm_buffer_shape (bytes : List Char) (A B C V rest : CStr)
    (hbuf : cstr bytes = A ++ DRM_KEY ++ (B ++ COLON :: (C ++ QUOTE :: (V ++ QUOTE :: rest))))
    (hA : ∀ y, strstr (A ++ DRM_KEY ++ y) DRM_KEY = some (DRM_KEY ++ y))
    (hB : COLON ∉ B) (hC : QUOTE ∉ C) (hV : QUOTE ∉ V) :
    fix_drm_buffer bytes =
      (if V = STANDARD then (0, none)
       else (1, some (A ++ DRM_KEY ++
        (B ++ COLON :: (C ++ QUOTE :: (STANDARD ++ QUOTE :: rest)))))) ∧
    drm_value bytes = some V := by
  have hC' : QUOTE ∉ COLON :: C := by
    intro h
    rcases List.mem_cons.mp h with h | h
    · exact absurd h (by decide)
    · exact hC h
  have e1 : (DRM_KEY ++ (B ++ COLON :: (C ++ QUOTE :: (V ++ QUOTE :: rest)))).drop DRM_KEY.length
      = B ++ COLON :: (C ++ QUOTE :: (V ++ QUOTE :: rest)) := List.drop_left _ _
  have e2 := strchr_append COLON B (C ++ QUOTE :: (V ++ QUOTE :: rest)) hB
  have e3 : strchr (COLON :: (C ++ QUOTE :: (V ++ QUOTE :: rest))) QUOTE =
      some (QUOTE :: (V ++ QUOTE :: rest)) :=
    strchr_append QUOTE (COLON :: C) (V ++ QUOTE :: rest) hC'
  have e4 : (QUOTE :: (V ++ QUOTE :: rest)).drop 1 = V ++ QUOTE :: rest := rfl
  have e5 := strchr_append QUOTE V rest hV
  have e6 : (QUOTE :: (V ++ QUOTE :: rest)).length - (QUOTE :: rest).length - 1 = V.length := by
    simp only [List.length_append, List.length_cons]
    omega
  constructor
  · unfold fix_drm_buffer
    simp only [hbuf, hA, e1, e2, e3, e4, e5, e6]
    have hout : (A ++ DRM_KEY ++ (B ++ COLON :: (C ++ QUOTE :: (V ++ QUOTE :: rest)))).take
        ((A ++ DRM_KEY ++ (B ++ COLON :: (C ++ QUOTE :: (V ++ QUOTE :: rest)))).length -
          (QUOTE :: (V ++ QUOTE :: rest)).length + 1) =
        A ++ DRM_KEY ++ (B ++ COLON :: (C ++ [QUOTE])) := by
      have := take_through (A ++ DRM_KEY ++ (B ++ COLON :: C)) (V ++ QUOTE :: rest) QUOTE
      simp only [List.append_assoc, List.cons_append] at this ⊢
      exact this
    rw [hout]
    by_cases hv : V = STANDARD
    · subst hv
      rw [if_pos rfl, if_pos ⟨rfl, List.take_left _ _⟩]
    · rw [if_neg hv, if_neg]
      · simp only [List.append_assoc, List.cons_append, List.nil_append, List.singleton_append]
      · rintro ⟨hl, ht⟩
        apply hv
        rw [← hl, List.take_left] at ht
        exact ht
  · unfold drm_value
    simp only [hbuf, hA, e1, e2, e3, e4, e5, e6]
    rw [List.take_left]

/-- Where the four searches of `fix_application_drm_type` all succeed, the buffer has the shape
key, colon, quoted string. -/
theorem drm_shape (buf p colon q1 q2 : CStr)
    (h1 : strstr buf DRM_KEY = some p)
    (h2 : strchr (p.drop DRM_KEY.length) COLON = some colon)
    (h3 : strchr colon QUOTE = some q1)
    (h4 : strchr (q1.drop 1) QUOTE = some q2) :
    ∃ A B C V rest,
      buf = A ++ DRM_KEY ++ (B ++ COLON :: (C ++ QUOTE :: (V ++ QUOTE :: rest))) ∧
      (∀ y, strstr (A ++ DRM_KEY ++ y) DRM_KEY = some (DRM_KEY ++ y)) ∧
      COLON ∉ B ∧ QUOTE ∉ C ∧ QUOTE ∉ V := by
  obtain ⟨A, x, hbuf, hp, hA⟩ := strstr_spec DRM_KEY buf p h1
  subst hp
  rw [List.drop_left] at h2
  obtain ⟨B, r1, hx, hcolon, hB⟩ := strchr_spec COLON x colon h2
  subst hcolon
  have h3' : strchr r1 QUOTE = some q1 := by
    unfold strchr at h3
    rw [if_neg (by decide)] at h3
    exact h3
  obtain ⟨C, r2, hr1, hq1, hC⟩ := strchr_spec QUOTE r1 q1 h3'
  subst hq1
  have h4' : strchr r2 QUOTE = some q2 := h4
  obtain ⟨V, rest, hr2, -, hV⟩ := strchr_spec QUOTE r2 q2 h4'
  exact ⟨A, B, C, V, rest, by rw [hbuf, hx, hr1, hr2], hA, hB, hC, hV⟩

theorem cstr_no_nul (bytes : List Char) : ∀ a ∈ cstr bytes, (a != NUL) = true :=
  fun a ha => by
    unfold cstr at ha
    exact @List.mem_takeWhile_imp Char (fun c => c != NUL) bytes a ha

theorem overwrite_start_length (content data : List Char) :
    (overwrite_start content data).length = max data.length content.length := by
  unfold overwrite_start
  simp only [List.length_append, List.length_drop]
  omega

/-- One run on a file of admissible size, case by case. -/
theorem fix_drm_file_cases (content : List Char) (h0 : 0 < content.length)
    (h5 : content.length ≤ 1024 * 1024 * 5) :
    (fix_drm_file content = (0, content) ∧ strstr (cstr content) DRM_KEY = none ∧
      drm_value content = none) ∨
    (fix_drm_file content = (-1, content) ∧ strstr (cstr content) DRM_KEY ≠ none ∧
      drm_value content = none ∧ fix_drm_buffer content = (-1, none)) ∨
    (fix_drm_file content = (0, content) ∧ drm_value content = some STANDARD ∧
      fix_drm_buffer content = (0, none)) ∨
    (∃ A B C V rest,
      cstr content = A ++ DRM_KEY ++ (B ++ COLON :: (C ++ QUOTE :: (V ++ QUOTE :: rest))) ∧
      (∀ y, strstr (A ++ DRM_KEY ++ y) DRM_KEY = some (DRM_KEY ++ y)) ∧
      COLON ∉ B ∧ QUOTE ∉ C ∧ QUOTE ∉ V ∧ V ≠ STANDARD ∧ drm_value content = some V ∧
      fix_drm_file content = (1, overwrite_start content
        (A ++ DRM_KEY ++ (B ++ COLON :: (C ++ QUOTE :: (STANDARD ++ QUOTE :: rest)))))) := by
  have hsize : ¬ (content.length ≤ 0 ∨ content.length > 1024 * 1024 * 5) := by omega
  cases h1 : strstr (cstr content) DRM_KEY with
  | none =>
    left
    refine ⟨?_, rfl, ?_⟩
    · simp only [fix_drm_file, if_neg hsize, fix_drm_buffer, h1]
    · simp only [drm_value, h1]
  | some p =>
    right
    cases h2 : strchr (p.drop DRM_KEY.length) COLON with
    | none =>
      left
      refine ⟨?_, by simp, ?_, ?_⟩
      · simp only [fix_drm_file, if_neg hsize, fix_drm_buffer, h1, h2]
      · simp only [drm_value, h1, h2]
      · simp only [fix_drm_buffer, h1, h2]
    | some colon =>
      cases h3 : strchr colon QUOTE with
      | none =>
        left
        refine ⟨?_, by simp, ?_, ?_⟩
        · simp only [fix_drm_file, if_neg hsize, fix_drm_buffer, h1, h2, h3]
        · simp only [drm_value, h1, h2, h3]
        · simp only [fix_drm_buffer, h1, h2, h3]
      | some q1 =>
        cases h4 : strchr (q1.drop 1) QUOTE with
        | none =>
          left
          refine ⟨?_, by simp, ?_, ?_⟩
          · simp only [fix_drm_file, if_neg hsize, fix_drm_buffer, h1, h2, h3, h4]
          · simp only [drm_value, h1, h2, h3, h4]
          · simp only [fix_drm_buffer, h1, h2, h3, h4]
        | some q2 =>
          right
          obtain ⟨A, B, C, V, rest, hbuf, hA, hB, hC, hV⟩ :=
            drm_shape (cstr content) p colon q1 q2 h1 h2 h3 h4
          obtain ⟨hfix, hval⟩ := fix_drm_buffer_shape content A B C V rest hbuf hA hB hC hV
          by_cases hv : V = STANDARD
          · left
            rw [if_pos hv] at hfix
            refine ⟨?_, hv ▸ hval, hfix⟩
            simp only [fix_drm_file, if_neg hsize, hfix]
          · right
            rw [if_neg hv] at hfix
            refine ⟨A, B, C, V, rest, hbuf, hA, hB, hC, hV, hv, hval, ?_⟩
            simp only [fix_drm_file, if_neg hsize, hfix]

/-- After a rewrite, the file reads key, colon, `"standard"`: the next run changes nothing. -/
theorem fix_drm_buffer_rewritten (content : List Char) (A B C V rest : CStr)
    (hbuf : cstr content = A ++ DRM_KEY ++ (B ++ COLON :: (C ++ QUOTE :: (V ++ QUOTE :: rest))))
    (hA : ∀ y, strstr (A ++ DRM_KEY ++ y) DRM_KEY = some (DRM_KEY ++ y))
    (hB : COLON ∉ B) (hC : QUOTE ∉ C) :
    fix_drm_buffer (overwrite_start content
      (A ++ DRM_KEY ++ (B ++ COLON :: (C ++ QUOTE :: (STANDARD ++ QUOTE :: rest))))) = (0, none) ∧
    drm_value (overwrite_start content
      (A ++ DRM_KEY ++ (B ++ COLON :: (C ++ QUOTE :: (STANDARD ++ QUOTE :: rest))))) =
      some STANDARD := by
  have hnul : ∀ a ∈ A ++ DRM_KEY ++ (B ++ COLON :: (C ++ QUOTE :: (STANDARD ++ QUOTE :: rest))),
      (a != NUL) = true := by
    intro a ha
    have hin : a ∈ cstr content ∨ a ∈ STANDARD := by
      rw [hbuf]
      simp only [List.mem_append, List.mem_cons] at ha ⊢
      tauto
    rcases hin with h | h
    · exact cstr_no_nul content a h
    · exact (by decide : ∀ a ∈ STANDARD, (a != NUL) = true) a h
  have hc : cstr (overwrite_start content
      (A ++ DRM_KEY ++ (B ++ COLON :: (C ++ QUOTE :: (STANDARD ++ QUOTE :: rest))))) =
      A ++ DRM_KEY ++ (B ++ COLON :: (C ++ QUOTE :: (STANDARD ++ QUOTE ::
        (rest ++ cstr (content.drop (A ++ DRM_KEY ++
          (B ++ COLON :: (C ++ QUOTE :: (STANDARD ++ QUOTE :: rest)))).length))))) := by
    unfold overwrite_start cstr
    rw [List.takeWhile_append_of_pos hnul]
    simp only [List.append_assoc, List.cons_append]
  have := fix_drm_buffer_shape _ A B C STANDARD _ hc hA hB hC (by decide)
  rw [if_pos rfl] at this
  exact this

/-- A run of `fix_application_drm_type` on a file that opens for update, seen through its events:
the return value and the file left by its write are those of `fix_drm_file`. -/
theorem fix_application_drm_type_file (env : Env) (path : CStr) (tr : Trace)
    (content : List Char) (h : env.read_file tr path true = some content) :
    (fix_application_drm_type env path tr).1 = (fix_drm_file content).1 ∧
    file_after path content (fix_application_drm_type env path tr).2 =
      (fix_drm_file content).2 := by
  unfold fix_application_drm_type fix_drm_file
  rw [h]
  dsimp only
  split_ifs
  · exact ⟨rfl, rfl⟩
  · rcases hfix : fix_drm_buffer content with ⟨r, _ | out⟩
    · exact ⟨rfl, rfl⟩
    · refine ⟨rfl, ?_⟩
      simp only [file_after, List.foldl_append, List.foldl_cons, List.foldl_nil, if_true]

/-- C13, as the code has it.  For every file content that is not empty and at most 5 MiB, with
the field read in the C string that `strstr` sees (up to the first NUL byte): after one run, a
first key that is followed by a colon and a quoted string has the value `standard`; a second run
leaves the file byte for byte as the first run left it; the second run returns `0` except that it
returns `-1` when the first run returned `-1` (a key with no colon or no quoted string after it)
and when the file left by the first run is longer than 5 MiB; the first run leaves the file as
it was unless it returns `1`, and returns `0` leaving the file as it was when there is no key or
the value is `standard` already; the file never shrinks and grows by at most the length of
`standard`. -/
theorem fix_drm_file_idempotent (content : List Char) (h0 : 0 < content.length)
    (h5 : content.length ≤ 1024 * 1024 * 5) :
    (∀ v, drm_value (fix_drm_file content).2 = some v → v = STANDARD) ∧
    fix_drm_file (fix_drm_file content).2 =
      (if (fix_drm_file content).1 = -1 ∨ 1024 * 1024 * 5 < (fix_drm_file content).2.length
        then -1 else 0, (fix_drm_file content).2) ∧
    ((fix_drm_file content).1 ≠ 1 → (fix_drm_file content).2 = content) ∧
    (strstr (cstr content) DRM_KEY = none ∨ drm_value content = some STANDARD →
      fix_drm_file content = (0, content)) ∧
    content.length ≤ (fix_drm_file content).2.length ∧
    (fix_drm_file content).2.length ≤ content.length + STANDARD.length ∧
    ∀ (env : Env) (path : CStr) (tr : Trace), env.read_file tr path true = some content →
      (fix_application_drm_type env path tr).1 = (fix_drm_file content).1 ∧
      file_after path content (fix_application_drm_type env path tr).2 =
        (fix_drm_file content).2 := by
  refine ⟨?_, ?_, ?_, ?_, ?_, ?_,
    fun env path tr h => fix_application_drm_type_file env path tr content h⟩
  · rcases fix_drm_file_cases content h0 h5 with
      ⟨hf, -, hv⟩ | ⟨hf, -, hv, -⟩ | ⟨hf, hv, -⟩ |
      ⟨A, B, C, V, rest, hbuf, hA, hB, hC, hV, hne, hv, hf⟩
    · intro v h; rw [hf] at h; rw [hv] at h; cases h
    · intro v h; rw [hf] at h; rw [hv] at h; cases h
    · intro v h
      rw [hf] at h
      rw [hv] at h
      exact (Option.some.inj h).symm
    · intro v h
      rw [hf] at h
      rw [(fix_drm_buffer_rewritten content A B C V rest hbuf hA hB hC).2] at h
      exact (Option.some.inj h).symm
  · rcases fix_drm_file_cases content h0 h5 with
      ⟨hf, -, hv⟩ | ⟨hf, -, hv, -⟩ | ⟨hf, hv, -⟩ |
      ⟨A, B, C, V, rest, hbuf, hA, hB, hC, hV, hne, hv, hf⟩
    · rw [hf]
      show fix_drm_file content = _
      rw [hf, if_neg (by dsimp only; omega)]
    · rw [hf]
      show fix_drm_file content = _
      rw [hf, if_pos (Or.inl rfl)]
    · rw [hf]
      show fix_drm_file content = _
      rw [hf, if_neg (by dsimp only; omega)]
    · rw [hf]
      dsimp only
      have hlen := overwrite_start_length content
        (A ++ DRM_KEY ++ (B ++ COLON :: (C ++ QUOTE :: (STANDARD ++ QUOTE :: rest))))
      have hfix := (fix_drm_buffer_rewritten content A B C V rest hbuf hA hB hC).1
      generalize overwrite_start content
        (A ++ DRM_KEY ++ (B ++ COLON :: (C ++ QUOTE :: (STANDARD ++ QUOTE :: rest)))) = c1 at *
      by_cases hbig : 1024 * 1024 * 5 < c1.length
      · rw [if_pos (Or.inr hbig)]
        unfold fix_drm_file
        rw [if_pos (Or.inr hbig)]
      · rw [if_neg (by omega)]
        unfold fix_drm_file
        rw [if_neg (by omega), hfix]
  · rcases fix_drm_file_cases content h0 h5 with
      ⟨hf, -, hv⟩ | ⟨hf, -, hv, -⟩ | ⟨hf, hv, -⟩ |
      ⟨A, B, C, V, rest, hbuf, hA, hB, hC, hV, hne, hv, hf⟩
    · intro _; rw [hf]
    · intro _; rw [hf]
    · intro _; rw [hf]
    · intro h; rw [hf] at h; exact absurd rfl h
  · rcases fix_drm_file_cases content h0 h5 with
      ⟨hf, -, hv⟩ | ⟨hf, hk, hv, -⟩ | ⟨hf, hv, -⟩ |
      ⟨A, B, C, V, rest, hbuf, hA, hB, hC, hV, hne, hv, hf⟩
    · intro _; exact hf
    · rintro (h | h)
      · exact absurd h hk
      · rw [hv] at h; cases h
    · intro _; exact hf
    · rintro (h | h)
      · rw [hbuf, hA] at h; cases h
      · rw [hv] at h; exact absurd (Option.some.inj h) hne
  · rcases fix_drm_file_cases content h0 h5 with
      ⟨hf, -, hv⟩ | ⟨hf, -, hv, -⟩ | ⟨hf, hv, -⟩ |
      ⟨A, B, C, V, rest, hbuf, hA, hB, hC, hV, hne, hv, hf⟩
    · rw [hf]
    · rw [hf]
    · rw [hf]
    · rw [hf]
      dsimp only
      rw [overwrite_start_length]
      omega
  · rcases fix_drm_file_cases content h0 h5 with
      ⟨hf, -, hv⟩ | ⟨hf, -, hv, -⟩ | ⟨hf, hv, -⟩ |
      ⟨A, B, C, V, rest, hbuf, hA, hB, hC, hV, hne, hv, hf⟩
    · rw [hf]; exact Nat.le_add_right _ _
    · rw [hf]; exact Nat.le_add_right _ _
    · rw [hf]; exact Nat.le_add_right _ _
    · rw [hf]
      dsimp only
      rw [overwrite_start_length]
      have hle : (cstr content).length ≤ content.length := by
        unfold cstr
        exact (List.takeWhile_sublist _).length_le
      rw [hbuf] at hle
      simp only [List.length_append, List.length_cons] at hle ⊢
      omega

theorem fix_drm_file_idempotent_witness :
    fix_drm_file descriptor_drm_free =
      (1, "\x7b\"applicationDrmType\":\"standard\"\x7d".toList) ∧
    fix_drm_file (fix_drm_file descriptor_drm_free).2 =
      (if (fix_drm_file descriptor_drm_free).1 = -1 ∨
          1024 * 1024 * 5 < (fix_drm_file descriptor_drm_free).2.length
        then -1 else 0, (fix_drm_file descriptor_drm_free).2) :=
  ⟨by decide, (fix_drm_file_idempotent descriptor_drm_free (by decide) (by decide)).2.1⟩

/-- One run on the key, a colon, an empty quoted string and `N` blanks, of admissible size: the
file is rewritten and is 8 bytes longer. -/
theorem fix_drm_file_blanks (N : Nat) (hN : 23 + N ≤ 1024 * 1024 * 5) :
    fix_drm_file ("\"applicationDrmType\":\"\"".toList ++ List.replicate N (Char.ofNat 32)) =
      (1, "\"applicationDrmType\":\"standard\"".toList ++ List.replicate N (Char.ofNat 32)) := by
  have hhdr : "\"applicationDrmType\":\"\"".toList = DRM_KEY ++ [COLON, QUOTE, QUOTE] := by decide
  have hhdr' : "\"applicationDrmType\":\"standard\"".toList =
      DRM_KEY ++ COLON :: QUOTE :: (STANDARD ++ [QUOTE]) := by decide
  have hkey : DRM_KEY.length = 20 := by decide
  have hstd : STANDARD.length = 8 := by decide
  have hnul : ∀ x ∈ DRM_KEY ++ [COLON, QUOTE, QUOTE] ++ List.replicate N (Char.ofNat 32),
      (x != NUL) = true := by
    intro x hx
    rcases List.mem_append.mp hx with h | h
    · exact (by decide : ∀ x ∈ DRM_KEY ++ [COLON, QUOTE, QUOTE], (x != NUL) = true) x h
    · rw [List.eq_of_mem_replicate h]; decide
  have hbuf : cstr (DRM_KEY ++ [COLON, QUOTE, QUOTE] ++ List.replicate N (Char.ofNat 32)) =
      [] ++ DRM_KEY ++ ([] ++ COLON :: ([] ++ QUOTE :: ([] ++ QUOTE ::
        List.replicate N (Char.ofNat 32)))) := by
    unfold cstr
    rw [List.takeWhile_eq_self_iff.mpr hnul]
    simp only [List.nil_append, List.append_assoc, List.cons_append]
  have hfix := (fix_drm_buffer_shape _ [] [] [] [] (List.replicate N (Char.ofNat 32)) hbuf
    (fun y => strstr_self DRM_KEY y) (List.not_mem_nil _) (List.not_mem_nil _)
    (List.not_mem_nil _)).1
  rw [if_neg (by decide)] at hfix
  rw [hhdr, hhdr']
  have hlen : (DRM_KEY ++ [COLON, QUOTE, QUOTE] ++ List.replicate N (Char.ofNat 32)).length =
      23 + N := by
    simp only [List.length_append, List.length_cons, List.length_nil, List.length_replicate, hkey]
  unfold fix_drm_file
  rw [if_neg (by rw [hlen]; omega), hfix]
  dsimp only
  unfold overwrite_start
  rw [List.drop_eq_nil_of_le (by
    simp only [List.length_append, List.length_cons, List.length_nil, List.length_replicate,
      hkey, hstd]
    omega)]
  simp only [List.nil_append, List.append_assoc, List.cons_append, List.append_nil]

/-- C13 fails as stated, twice.  A file that is the key alone, with no colon after it: both runs
return `-1`, not `0`.  A file of exactly 5 MiB whose field has the empty value: the first run
rewrites it (returns `1`) and leaves a file of 5 MiB and 8 bytes, on which the second run returns
`-1`, not `0`. -/
theorem second_run_not_zero :
    (0 < descriptor_drm_no_colon.length ∧ descriptor_drm_no_colon.length ≤ 1024 * 1024 * 5 ∧
      fix_drm_file descriptor_drm_no_colon = (-1, descriptor_drm_no_colon) ∧
      (fix_drm_file (fix_drm_file descriptor_drm_no_colon).2).1 = -1) ∧
    (descriptor_drm_five_mib.length = 1024 * 1024 * 5 ∧
      (fix_drm_file descriptor_drm_five_mib).1 = 1 ∧
      (fix_drm_file descriptor_drm_five_mib).2.length = 1024 * 1024 * 5 + 8 ∧
      (fix_drm_file (fix_drm_file descriptor_drm_five_mib).2).1 = -1) := by
  have h := fix_drm_file_blanks 5242857 (by norm_num)
  have hlen : ("\"applicationDrmType\":\"standard\"".toList ++
      List.replicate 5242857 (Char.ofNat 32)).length = 5242888 := by
    rw [List.length_append, List.length_replicate]
    have : "\"applicationDrmType\":\"standard\"".toList.length = 31 := by decide
    rw [this]
  refine ⟨⟨by decide, by decide, by decide, by decide⟩, ?_, ?_, ?_, ?_⟩
  · unfold descriptor_drm_five_mib
    rw [List.length_append, List.length_replicate]
    have : "\"applicationDrmType\":\"\"".toList.length = 23 := by decide
    rw [this]
  · unfold descriptor_drm_five_mib
    rw [h]
  · unfold descriptor_drm_five_mib
    rw [h]
    exact hlen
  · unfold descriptor_drm_five_mib
    rw [h]
    dsimp only
    unfold fix_drm_file
    rw [if_pos (Or.inr (by rw [hlen]; norm_num))]

/-! ## The cache-hit row and the second occurrence of a bundle -/

end ShadowMount
